import Mathlib

/-!
Verification development for the checkpoint-merging engine of
`modules/extras.py` (`run_modelmerger` and its helpers).

Modelling conventions:
* a torch tensor is embedded as a shape (list of dimension sizes) plus
  row-major flat data over exact integers (exact ring arithmetic standing in for float arithmetic); elementwise torch arithmetic
  becomes elementwise rational arithmetic (numeric dtype/precision is not
  modelled: the dtype-cast helpers `to_bfloat16` etc. are opaque
  value transforms passed in as parameters, since their rounding behaviour
  is floating-point and external to the merge logic),
* a Python `dict` of weights is an ordered association list with the usual
  dict semantics: lookup, `d[k] = v` (replace in place or append), `pop`,
  iteration in list order,
* `re.search` with the fixed patterns of the source (alternations of
  literal markers wrapped in `\b ... \.\b`) is implemented by a direct
  scanner over the character list,
* fallible code paths (`raise RuntimeError`, failing `assert`, index
  errors) return `Except String`.
-/

set_option maxHeartbeats 1000000

namespace ForgeMerge

/-- A tensor: shape plus row-major flat data over exact integers (exact ring arithmetic standing in for float arithmetic). -/
structure Tensor where
  shape : List Nat
  data : List ℤ
deriving DecidableEq, Repr

/-- Well-formedness: the flat data has exactly as many entries as the shape
describes. -/
def Tensor.wf (t : Tensor) : Prop := t.data.length = t.shape.prod

instance (t : Tensor) : Decidable t.wf :=
  inferInstanceAs (Decidable (_ = _))

/-- Elementwise combination of two tensors (torch broadcasting is not
modelled; every use in the theorems below is under a same-shape hypothesis,
which is the only case the merge code exercises on well-formed inputs). -/
def Tensor.zipT (f : ℤ → ℤ → ℤ) (a b : Tensor) : Tensor :=
  ⟨a.shape, List.zipWith f a.data b.data⟩

/-- Scalar multiple of a tensor. -/
def Tensor.smul (c : ℤ) (a : Tensor) : Tensor :=
  ⟨a.shape, a.data.map (fun x => c * x)⟩

instance : HMul ℤ Tensor Tensor := ⟨Tensor.smul⟩

instance : HAdd Tensor Tensor Tensor := ⟨Tensor.zipT (fun x y => x + y)⟩

instance : HSub Tensor Tensor Tensor := ⟨Tensor.zipT (fun x y => x - y)⟩

/-- `weighted_sum(theta0, theta1, alpha)` from `run_modelmerger`:
`((1 - alpha) * theta0) + (alpha * theta1)`. -/
def weighted_sum (theta0 theta1 : Tensor) (alpha : ℤ) : Tensor :=
  ((1 - alpha) * theta0) + (alpha * theta1)

/-- `get_difference(theta1, theta2)` from `run_modelmerger`: `theta1 - theta2`. -/
def get_difference (theta1 theta2 : Tensor) : Tensor :=
  theta1 - theta2

/-- `add_difference(theta0, theta1_2_diff, alpha)` from `run_modelmerger`:
`theta0 + (alpha * theta1_2_diff)`. -/
def add_difference (theta0 theta1_2_diff : Tensor) (alpha : ℤ) : Tensor :=
  theta0 + (alpha * theta1_2_diff)

/-- `torch.zeros_like`: same shape, all entries zero. -/
def zeros_like (t : Tensor) : Tensor :=
  ⟨t.shape, t.data.map (fun _ => 0)⟩

/-! ## Weight maps (Python dicts of tensors) -/

/-- A loaded state dict: ordered association list from key to tensor. -/
abbrev ThetaMap := List (String × Tensor)

/-- First-match lookup, i.e. `theta[key]` / `theta.get(key)` on a dict with
unique keys. -/
def lookupT : ThetaMap → String → Option Tensor
  | [], _ => none
  | (k, v) :: rest, key => if k = key then some v else lookupT rest key

/-- Python `key in theta`. -/
def hasKey (θ : ThetaMap) (k : String) : Bool :=
  (lookupT θ k).isSome

/-- Python `theta[key] = v`: replace in place when the key is present,
append otherwise. -/
def insertT : ThetaMap → String → Tensor → ThetaMap
  | [], key, v => [(key, v)]
  | (k, w) :: rest, key, v =>
    if k = key then (key, v) :: rest else (k, w) :: insertT rest key v

/-! ## String and regex machinery

The source uses Python substring tests (`'model' in key`) and `re.search`
with a handful of fixed patterns of the form `\b(m1|m2|...)\.\b` where each
`mi` is a literal marker (every marker starts and ends with a word
character, so the leading `\b` means "start of string or preceded by a
non-word character", and the trailing `\.\b` means "followed by a literal
dot and then a word character"). -/

/-- Does `pat` occur at the very start of `s`? -/
def leadsWith : List Char → List Char → Bool
  | [], _ => true
  | _ :: _, [] => false
  | p :: ps, c :: cs => p == c && leadsWith ps cs

/-- Does `pat` occur anywhere in `s`? -/
def containsSeq (pat : List Char) : List Char → Bool
  | [] => leadsWith pat []
  | c :: cs => leadsWith pat (c :: cs) || containsSeq pat cs

/-- Python `pat in s` substring test. -/
def strContains (s pat : String) : Bool :=
  containsSeq pat.toList s.toList

/-- Python regex word character (`\w`): alphanumeric or underscore. -/
def isWordChar (c : Char) : Bool :=
  c.isAlphanum || c == '_'

/-- At the current position, does marker `p` occur followed by a literal dot
and a word character (the `\.\b` tail of the strip patterns)? -/
def markerAt (p : List Char) (s : List Char) : Bool :=
  leadsWith p s &&
    (match s.drop p.length with
     | '.' :: d :: _ => isWordChar d
     | _ => false)

/-- Scan `s` position by position; `prevWord` records whether the previous
character was a word character (for the leading `\b`). -/
def scanMarkers (pats : List (List Char)) : Bool → List Char → Bool
  | _, [] => false
  | prevWord, c :: cs =>
    (!prevWord && pats.any (fun p => markerAt p (c :: cs)))
      || scanMarkers pats (isWordChar c) cs

/-- `re.search(r'\b(m1|m2|...)\.\b', key)` for literal markers `mi`. -/
def boundarySearch (pats : List String) (key : String) : Bool :=
  scanMarkers (pats.map String.toList) false key.toList

/-- Markers of the text-encoder strip pattern
`\b(text_model|conditioner\.embedders|cond_stage_model\.model)\.\b`. -/
def teStripMarkers : List String :=
  ["text_model", "conditioner.embedders", "cond_stage_model.model"]

/-- Markers of the VAE strip pattern `\b(first_stage_model|vae)\.\b`
(also the VAE save/recast pattern). -/
def vaeStripMarkers : List String :=
  ["first_stage_model", "vae"]

/-- Markers of the unet strip pattern `\b(model\.diffusion_model)\.\b`. -/
def unetStripMarkers : List String :=
  ["model.diffusion_model"]

/-- Markers of the text-encoder save/recast pattern
`\b(text_model|conditioner\.embedders)\.\b`. -/
def teSaveMarkers : List String :=
  ["text_model", "conditioner.embedders"]

/-- KeyClassifier: does the key classify as `text_encoder`? -/
def isTeStripKey (k : String) : Bool :=
  boundarySearch teStripMarkers k

/-- KeyClassifier: does the key classify as `vae`? -/
def isVaeStripKey (k : String) : Bool :=
  boundarySearch vaeStripMarkers k

/-- KeyClassifier: does the key classify as diffusion `backbone`? -/
def isUnetStripKey (k : String) : Bool :=
  boundarySearch unetStripMarkers k

/-- Prefix-match with wildcard positions (for the one save-loop pattern with
unescaped dots). -/
def leadsWithW : List (Option Char) → List Char → Bool
  | [], _ => true
  | _ :: _, [] => false
  | p :: ps, c :: cs =>
    (match p with
     | none => true
     | some a => a == c) && leadsWithW ps cs

/-- Does the wildcard pattern occur anywhere in `s`? -/
def containsWild (pat : List (Option Char)) : List Char → Bool
  | [] => leadsWithW pat []
  | c :: cs => leadsWithW pat (c :: cs) || containsWild pat cs

/-- `re.compile("model.diffusion_model.")` from the save loop: the unescaped
dots are single-character wildcards. -/
def unetSaveRegex : List (Option Char) :=
  ("model".toList.map some) ++ [none] ++ ("diffusion_model".toList.map some) ++ [none]

/-- `re.search("model.diffusion_model.", key)`. -/
def isUnetSaveKey (k : String) : Bool :=
  containsWild unetSaveRegex k.toList

/-- `checkpoint_dict_skip_on_merge`: position-id buffers excluded from merge
arithmetic. -/
def checkpoint_dict_skip_on_merge : List String :=
  ["cond_stage_model.transformer.text_model.embeddings.position_ids"]

/-! ## Algebra of the merge operators (claims C7 and C8) -/

theorem zipWith_add_map_zero_right (l1 l2 : List ℤ) (h : l1.length ≤ l2.length) :
    List.zipWith (fun x y => x + y) l1 (l2.map (fun y => (0 : ℤ) * y)) = l1 := by
  induction l1 generalizing l2 with
  | nil => simp
  | cons x xs ih =>
    cases l2 with
    | nil => simp at h
    | cons y ys =>
      show (x + 0 * y) :: List.zipWith _ xs (ys.map _) = x :: xs
      rw [zero_mul, add_zero, ih ys (Nat.le_of_succ_le_succ h)]

theorem zipWith_map_zero_add_left (l1 l2 : List ℤ) (h : l2.length ≤ l1.length) :
    List.zipWith (fun x y => x + y) (l1.map (fun x => (0 : ℤ) * x)) l2 = l2 := by
  induction l2 generalizing l1 with
  | nil => simp
  | cons y ys ih =>
    cases l1 with
    | nil => simp at h
    | cons x xs =>
      show (0 * x + y) :: List.zipWith _ (xs.map _) ys = y :: ys
      rw [zero_mul, zero_add, ih xs (Nat.le_of_succ_le_succ h)]

theorem map_one_mul (l : List ℤ) : l.map (fun x => (1 : ℤ) * x) = l := by
  induction l with
  | nil => rfl
  | cons x xs ih =>
    show (1 * x) :: xs.map _ = x :: xs
    rw [one_mul, ih]

/-! ## Channel-mismatch merging (`Merging A and B` loop body)

`a[:, 0:4, :, :]` and the in-place slice assignment
`theta_0[key][:, 0:4, :, :] = ...` are expressed on the flat data: for each
index along dimension 0 there is a contiguous block of `prod(shape[1:])`
scalars, whose first `4 * prod(shape[2:])` scalars are the channels `0..3`.
This matches torch indexing with four subscripts, which requires rank at
least 4 (below that torch raises, modelled as an error). -/

/-- `shape[0:1] + shape[2:]`: the shape with dimension 1 removed. -/
def dropDim1 (s : List Nat) : List Nat := s.take 1 ++ s.drop 2

/-- Scalars per index along dimension 0: `prod(shape[1:])`. -/
def blockSize (s : List Nat) : Nat := (s.drop 1).prod

/-- Scalars per (dim-0, channel) pair: `prod(shape[2:])`. -/
def chanSize (s : List Nat) : Nat := (s.drop 2).prod

/-- Take the first `keep` scalars of each of `n` consecutive blocks of `cs`
scalars. -/
def slicePerBlock (cs keep : Nat) : Nat → List ℤ → List ℤ
  | 0, _ => []
  | n + 1, l => l.take keep ++ slicePerBlock cs keep n (l.drop cs)

/-- Replace the first `keep` scalars of each of `n` consecutive blocks of
`cs` scalars of the first list by the successive `keep`-scalar blocks of the
second list. -/
def assignPerBlock (cs keep : Nat) : Nat → List ℤ → List ℤ → List ℤ
  | 0, _, _ => []
  | n + 1, aL, mL =>
    mL.take keep ++ ((aL.take cs).drop keep)
      ++ assignPerBlock cs keep n (aL.drop cs) (mL.drop keep)

/-- `a[:, 0:4, :, :]` (for rank at least 4). -/
def sliceCh4 (a : Tensor) : Tensor :=
  ⟨a.shape.set 1 4,
   slicePerBlock (blockSize a.shape) (4 * chanSize a.shape) (a.shape.headD 0) a.data⟩

/-- `a[:, 0:4, :, :] = m` (in-place slice assignment, for rank at least 4). -/
def assignCh4 (a m : Tensor) : Tensor :=
  ⟨a.shape,
   assignPerBlock (blockSize a.shape) (4 * chanSize a.shape) (a.shape.headD 0) a.data m.data⟩

/-- The flat slab of scalars at dim-0 index `i`, channel `j` of `t`
(`t[i, j]` flattened), used to state which channels a merge touched. -/
def readCh (t : Tensor) (i j : Nat) : List ℤ :=
  (t.data.drop (i * blockSize t.shape + j * chanSize t.shape)).take (chanSize t.shape)

/-- Message of `raise RuntimeError` for the 4-versus-9 channel case. -/
def inpaintingErrMsg : String :=
  "When merging inpainting model with a normal one, A must be the inpainting model."

/-- Message of `raise RuntimeError` for the 4-versus-8 channel case. -/
def pix2pixErrMsg : String :=
  "When merging instruct-pix2pix model with a normal one, A must be the instruct-pix2pix model."

/-- Message of the failing `assert` in the channel-mismatch fallthrough (the
source interpolates key and shapes into the text; elided here). -/
def badDimsErrMsg : String := "Bad dimensions for merged layer"

/-- Torch raises when `shape[1]` does not exist or when a rank-below-4
tensor is subscripted with four indices. -/
def indexErrMsg : String := "IndexError"

/-- The body of the `Merging A and B` loop for one key present in both
stores (with `'model' in key` and not in the skip list): shape-mismatch
policy plus elementwise merge, returning the new value for `theta_0[key]`
and the `(result_is_inpainting_model, result_is_instruct_pix2pix_model)`
flag contributions. -/
def mergeKeyAB (theta_func2 : Tensor → Tensor → ℤ → Tensor) (multiplier : ℤ)
    (a b : Tensor) : Except String (Tensor × Bool × Bool) :=
  if a.shape ≠ b.shape ∧ dropDim1 a.shape = dropDim1 b.shape then
    match a.shape.get? 1, b.shape.get? 1 with
    | some ca, some cb =>
      if ca = 4 ∧ cb = 9 then .error inpaintingErrMsg
      else if ca = 4 ∧ cb = 8 then .error pix2pixErrMsg
      else if ca = 8 ∧ cb = 4 then
        if 4 ≤ a.shape.length then
          .ok (assignCh4 a (theta_func2 (sliceCh4 a) b multiplier), false, true)
        else .error indexErrMsg
      else if ca = 9 ∧ cb = 4 then
        if 4 ≤ a.shape.length then
          .ok (assignCh4 a (theta_func2 (sliceCh4 a) b multiplier), true, false)
        else .error indexErrMsg
      else .error badDimsErrMsg
    | _, _ => .error indexErrMsg
  else
    .ok (theta_func2 a b multiplier, false, false)

/-- One entry of the `Merging A and B` loop: merge when the key is in
`theta_1` and contains `'model'` (and is not a skip-list key), otherwise
keep the entry untouched. -/
def mergeEntryAB (theta_func2 : Tensor → Tensor → ℤ → Tensor) (multiplier : ℤ)
    (theta_1 : ThetaMap) (e : String × Tensor) :
    Except String ((String × Tensor) × Bool × Bool) :=
  match lookupT theta_1 e.1, strContains e.1 "model" with
  | some b, true =>
    if e.1 ∈ checkpoint_dict_skip_on_merge then .ok (e, false, false)
    else
      match mergeKeyAB theta_func2 multiplier e.2 b with
      | .error msg => .error msg
      | .ok (v, g1, g2) => .ok ((e.1, v), g1, g2)
  | _, _ => .ok (e, false, false)

/-- The `Merging A and B` loop over the entries of `theta_0` in order; an
uncaught exception at any key aborts the whole merge. Flags accumulate
across keys. -/
def mergeABgo (theta_func2 : Tensor → Tensor → ℤ → Tensor) (multiplier : ℤ)
    (theta_1 : ThetaMap) : List (String × Tensor) → Except String (ThetaMap × Bool × Bool)
  | [] => .ok ([], false, false)
  | e :: rest =>
    match mergeEntryAB theta_func2 multiplier theta_1 e with
    | .error msg => .error msg
    | .ok (e2, g1, g2) =>
      match mergeABgo theta_func2 multiplier theta_1 rest with
      | .error msg => .error msg
      | .ok (out, h1, h2) => .ok (e2 :: out, g1 || h1, g2 || h2)

/-- The `Merging A and B` pass: fold the loop over `theta_0`. -/
def mergeAB (theta_func2 : Tensor → Tensor → ℤ → Tensor) (multiplier : ℤ)
    (theta_0 theta_1 : ThetaMap) : Except String (ThetaMap × Bool × Bool) :=
  mergeABgo theta_func2 multiplier theta_1 theta_0

/-- The `Merging B and C` loop: for each key of `theta_1` (B) not in the
skip list and containing `'model'`, replace the value by
`theta_func1(b, c)` when the key is in `theta_2` (C), and by
`torch.zeros_like(b)` otherwise. -/
def mergeBCgo (theta_func1 : Tensor → Tensor → Tensor) (theta_2 : ThetaMap) :
    List (String × Tensor) → ThetaMap
  | [] => []
  | (key, b) :: rest =>
    if key ∈ checkpoint_dict_skip_on_merge then
      (key, b) :: mergeBCgo theta_func1 theta_2 rest
    else if strContains key "model" then
      match lookupT theta_2 key with
      | some c => (key, theta_func1 b c) :: mergeBCgo theta_func1 theta_2 rest
      | none => (key, zeros_like b) :: mergeBCgo theta_func1 theta_2 rest
    else
      (key, b) :: mergeBCgo theta_func1 theta_2 rest

/-- The `Merging B and C` pass. -/
def mergeBC (theta_func1 : Tensor → Tensor → Tensor) (theta_1 theta_2 : ThetaMap) :
    ThetaMap :=
  mergeBCgo theta_func1 theta_2 theta_1

/-! ## Structure lemmas for the A/B pass -/

theorem mergeEntryAB_fst {f2 : Tensor → Tensor → ℤ → Tensor} {m : ℤ}
    {θ1 : ThetaMap} {e e2 : String × Tensor} {g1 g2 : Bool}
    (h : mergeEntryAB f2 m θ1 e = .ok (e2, g1, g2)) : e2.1 = e.1 := by
  unfold mergeEntryAB at h
  cases hb : lookupT θ1 e.1 with
  | none =>
    rw [hb] at h
    simp only [Except.ok.injEq, Prod.mk.injEq] at h
    rw [h.1]
  | some b =>
    rw [hb] at h
    cases hc : strContains e.1 "model" with
    | false =>
      rw [hc] at h
      simp only [Except.ok.injEq, Prod.mk.injEq] at h
      rw [h.1]
    | true =>
      rw [hc] at h
      simp only at h
      by_cases hs : e.1 ∈ checkpoint_dict_skip_on_merge
      · rw [if_pos hs] at h
        simp only [Except.ok.injEq, Prod.mk.injEq] at h
        rw [h.1]
      · rw [if_neg hs] at h
        cases hk : mergeKeyAB f2 m e.2 b with
        | error msg => rw [hk] at h; exact Except.noConfusion h
        | ok t =>
          obtain ⟨v, k1, k2⟩ := t
          rw [hk] at h
          simp only [Except.ok.injEq, Prod.mk.injEq] at h
          rw [← h.1]

theorem mergeEntryAB_keep (f2 : Tensor → Tensor → ℤ → Tensor) (m : ℤ)
    (θ1 : ThetaMap) (e : String × Tensor)
    (h : lookupT θ1 e.1 = none ∨ strContains e.1 "model" = false
      ∨ e.1 ∈ checkpoint_dict_skip_on_merge) :
    mergeEntryAB f2 m θ1 e = .ok (e, false, false) := by
  unfold mergeEntryAB
  rcases h with h | h | h
  · rw [h]
  · cases hb : lookupT θ1 e.1 with
    | none => rfl
    | some b => rw [h]
  · cases hb : lookupT θ1 e.1 with
    | none => rfl
    | some b =>
      cases hc : strContains e.1 "model" with
      | false => rfl
      | true => simp only [if_pos h]

theorem mergeEntryAB_merge (f2 : Tensor → Tensor → ℤ → Tensor) (m : ℤ)
    (θ1 : ThetaMap) (e : String × Tensor) (b v : Tensor) (g1 g2 : Bool)
    (hb : lookupT θ1 e.1 = some b) (hc : strContains e.1 "model" = true)
    (hs : e.1 ∉ checkpoint_dict_skip_on_merge)
    (hk : mergeKeyAB f2 m e.2 b = .ok (v, g1, g2)) :
    mergeEntryAB f2 m θ1 e = .ok ((e.1, v), g1, g2) := by
  unfold mergeEntryAB
  rw [hb, hc]
  simp only [if_neg hs, hk]

theorem mergeEntryAB_err (f2 : Tensor → Tensor → ℤ → Tensor) (m : ℤ)
    (θ1 : ThetaMap) (e : String × Tensor) (b : Tensor) (msg : String)
    (hb : lookupT θ1 e.1 = some b) (hc : strContains e.1 "model" = true)
    (hs : e.1 ∉ checkpoint_dict_skip_on_merge)
    (hk : mergeKeyAB f2 m e.2 b = .error msg) :
    mergeEntryAB f2 m θ1 e = .error msg := by
  unfold mergeEntryAB
  rw [hb, hc]
  simp only [if_neg hs, hk]

theorem mergeABgo_ok_keep (f2 : Tensor → Tensor → ℤ → Tensor) (m : ℤ)
    (θ1 : ThetaMap) (l : List (String × Tensor)) (k : String)
    (h : lookupT θ1 k = none ∨ strContains k "model" = false
      ∨ k ∈ checkpoint_dict_skip_on_merge) :
    ∀ out fl1 fl2, mergeABgo f2 m θ1 l = .ok (out, fl1, fl2) →
      lookupT out k = lookupT l k := by
  induction l with
  | nil =>
    intro out fl1 fl2 hok
    simp only [mergeABgo, Except.ok.injEq, Prod.mk.injEq] at hok
    rw [← hok.1]
  | cons e rest ih =>
    intro out fl1 fl2 hok
    unfold mergeABgo at hok
    cases hstep : mergeEntryAB f2 m θ1 e with
    | error msg => rw [hstep] at hok; exact Except.noConfusion hok
    | ok t =>
      obtain ⟨e2, g1, g2⟩ := t
      rw [hstep] at hok
      cases hrec : mergeABgo f2 m θ1 rest with
      | error msg => rw [hrec] at hok; exact Except.noConfusion hok
      | ok t2 =>
        obtain ⟨out2, h1, h2⟩ := t2
        rw [hrec] at hok
        simp only [Except.ok.injEq, Prod.mk.injEq] at hok
        obtain ⟨ho, -, -⟩ := hok
        subst ho
        by_cases hek : e.1 = k
        · have hkeep := mergeEntryAB_keep f2 m θ1 e (by rw [hek]; exact h)
          rw [hstep] at hkeep
          simp only [Except.ok.injEq, Prod.mk.injEq] at hkeep
          obtain ⟨he, -, -⟩ := hkeep
          rw [he]
          obtain ⟨k1, v1⟩ := e
          simp only at hek
          simp only [lookupT, if_pos hek]
        · have he2 : e2.1 = e.1 := mergeEntryAB_fst hstep
          obtain ⟨k1, v1⟩ := e
          obtain ⟨k2, v2⟩ := e2
          simp only at he2 hek
          subst he2
          simp only [lookupT, if_neg hek]
          exact ih out2 h1 h2 hrec

theorem mergeABgo_ok_merged (f2 : Tensor → Tensor → ℤ → Tensor) (m : ℤ)
    (θ1 : ThetaMap) (l : List (String × Tensor)) (k : String) (a b v : Tensor)
    (g1 g2 : Bool)
    (ha : lookupT l k = some a) (hb : lookupT θ1 k = some b)
    (hc : strContains k "model" = true)
    (hs : k ∉ checkpoint_dict_skip_on_merge)
    (hk : mergeKeyAB f2 m a b = .ok (v, g1, g2)) :
    ∀ out fl1 fl2, mergeABgo f2 m θ1 l = .ok (out, fl1, fl2) →
      lookupT out k = some v ∧ (g1 = true → fl1 = true)
        ∧ (g2 = true → fl2 = true) := by
  induction l with
  | nil => intro _ _ _ _; simp [lookupT] at ha
  | cons e rest ih =>
    intro out fl1 fl2 hok
    unfold mergeABgo at hok
    by_cases hek : e.1 = k
    · obtain ⟨k1, v1⟩ := e
      simp only at hek
      subst hek
      simp only [lookupT, eq_self_iff_true, if_true, Option.some.injEq] at ha
      subst ha
      have hstep := mergeEntryAB_merge f2 m θ1 (k1, v1) b v g1 g2 hb hc hs hk
      rw [hstep] at hok
      cases hrec : mergeABgo f2 m θ1 rest with
      | error msg => rw [hrec] at hok; exact Except.noConfusion hok
      | ok t2 =>
        obtain ⟨out2, h1, h2⟩ := t2
        rw [hrec] at hok
        simp only [Except.ok.injEq, Prod.mk.injEq] at hok
        obtain ⟨ho, hf1, hf2⟩ := hok
        subst ho
        refine ⟨by simp [lookupT], ?_, ?_⟩
        · intro hg; rw [← hf1, hg]; rfl
        · intro hg; rw [← hf2, hg]; rfl
    · obtain ⟨k1, v1⟩ := e
      simp only at hek
      rw [lookupT, if_neg hek] at ha
      cases hstep : mergeEntryAB f2 m θ1 (k1, v1) with
      | error msg => rw [hstep] at hok; exact Except.noConfusion hok
      | ok t =>
        obtain ⟨e2, j1, j2⟩ := t
        rw [hstep] at hok
        cases hrec : mergeABgo f2 m θ1 rest with
        | error msg => rw [hrec] at hok; exact Except.noConfusion hok
        | ok t2 =>
          obtain ⟨out2, h1, h2⟩ := t2
          rw [hrec] at hok
          simp only [Except.ok.injEq, Prod.mk.injEq] at hok
          obtain ⟨ho, hf1, hf2⟩ := hok
          subst ho
          have he2 : e2.1 = k1 := mergeEntryAB_fst hstep
          obtain ⟨k2, v2⟩ := e2
          simp only at he2
          subst he2
          obtain ⟨hl, hg1, hg2⟩ := ih ha out2 h1 h2 hrec
          refine ⟨by simp only [lookupT, if_neg hek]; exact hl, ?_, ?_⟩
          · intro hg; rw [← hf1, hg1 hg, Bool.or_true]
          · intro hg; rw [← hf2, hg2 hg, Bool.or_true]

theorem mergeABgo_ok_absent (f2 : Tensor → Tensor → ℤ → Tensor) (m : ℤ)
    (θ1 : ThetaMap) (l : List (String × Tensor)) (k : String)
    (ha : lookupT l k = none) :
    ∀ out fl1 fl2, mergeABgo f2 m θ1 l = .ok (out, fl1, fl2) →
      lookupT out k = none := by
  induction l with
  | nil =>
    intro out fl1 fl2 hok
    simp only [mergeABgo, Except.ok.injEq, Prod.mk.injEq] at hok
    rw [← hok.1]; exact ha
  | cons e rest ih =>
    intro out fl1 fl2 hok
    unfold mergeABgo at hok
    cases hstep : mergeEntryAB f2 m θ1 e with
    | error msg => rw [hstep] at hok; exact Except.noConfusion hok
    | ok t =>
      obtain ⟨e2, g1, g2⟩ := t
      rw [hstep] at hok
      cases hrec : mergeABgo f2 m θ1 rest with
      | error msg => rw [hrec] at hok; exact Except.noConfusion hok
      | ok t2 =>
        obtain ⟨out2, h1, h2⟩ := t2
        rw [hrec] at hok
        simp only [Except.ok.injEq, Prod.mk.injEq] at hok
        obtain ⟨ho, -, -⟩ := hok
        subst ho
        have he2 : e2.1 = e.1 := mergeEntryAB_fst hstep
        obtain ⟨k1, v1⟩ := e
        obtain ⟨k2, v2⟩ := e2
        simp only at he2
        by_cases hek : k1 = k
        · rw [lookupT, if_pos hek] at ha
          exact Option.noConfusion ha
        · rw [lookupT, if_neg hek] at ha
          rw [lookupT, if_neg (fun hcontra => hek (he2.symm.trans hcontra))]
          exact ih ha out2 h1 h2 hrec

theorem mergeABgo_err_of_bad_key (f2 : Tensor → Tensor → ℤ → Tensor) (m : ℤ)
    (θ1 : ThetaMap) (l : List (String × Tensor)) (k : String) (a b : Tensor)
    (msg : String)
    (ha : lookupT l k = some a) (hb : lookupT θ1 k = some b)
    (hc : strContains k "model" = true)
    (hs : k ∉ checkpoint_dict_skip_on_merge)
    (hk : mergeKeyAB f2 m a b = .error msg) :
    ∃ msg2, mergeABgo f2 m θ1 l = .error msg2 := by
  induction l with
  | nil => simp [lookupT] at ha
  | cons e rest ih =>
    by_cases hek : e.1 = k
    · obtain ⟨k1, v1⟩ := e
      simp only at hek
      subst hek
      simp only [lookupT, eq_self_iff_true, if_true, Option.some.injEq] at ha
      subst ha
      have hstep := mergeEntryAB_err f2 m θ1 (k1, v1) b msg hb hc hs hk
      refine ⟨msg, ?_⟩
      unfold mergeABgo
      rw [hstep]
    · obtain ⟨k1, v1⟩ := e
      simp only at hek
      rw [lookupT, if_neg hek] at ha
      cases hstep : mergeEntryAB f2 m θ1 (k1, v1) with
      | error msg2 =>
        refine ⟨msg2, ?_⟩
        unfold mergeABgo
        rw [hstep]
      | ok t =>
        obtain ⟨e2, g1, g2⟩ := t
        obtain ⟨msg2, hrec⟩ := ih ha
        refine ⟨msg2, ?_⟩
        unfold mergeABgo
        rw [hstep, hrec]

/-! ## Computation lemmas for the per-key shape policy -/

theorem shape_ne_of_channel_ne {s t : List Nat} {ca cb : Nat}
    (ha : s.get? 1 = some ca) (hb : t.get? 1 = some cb) (hne : ca ≠ cb) :
    s ≠ t := by
  intro h
  subst h
  rw [ha] at hb
  exact hne (Option.some.inj hb)

theorem mergeKeyAB_same_shape (f2 : Tensor → Tensor → ℤ → Tensor) (m : ℤ)
    (a b : Tensor) (h : a.shape = b.shape) :
    mergeKeyAB f2 m a b = .ok (f2 a b m, false, false) := by
  unfold mergeKeyAB
  rw [if_neg (fun hc => hc.1 h)]

theorem mergeKeyAB_4_9 (f2 : Tensor → Tensor → ℤ → Tensor) (m : ℤ) (a b : Tensor)
    (hd : dropDim1 a.shape = dropDim1 b.shape)
    (hca : a.shape.get? 1 = some 4) (hcb : b.shape.get? 1 = some 9) :
    mergeKeyAB f2 m a b = .error inpaintingErrMsg := by
  have hne := shape_ne_of_channel_ne hca hcb (by decide)
  unfold mergeKeyAB
  rw [if_pos ⟨hne, hd⟩, hca, hcb]
  norm_num

theorem mergeKeyAB_4_8 (f2 : Tensor → Tensor → ℤ → Tensor) (m : ℤ) (a b : Tensor)
    (hd : dropDim1 a.shape = dropDim1 b.shape)
    (hca : a.shape.get? 1 = some 4) (hcb : b.shape.get? 1 = some 8) :
    mergeKeyAB f2 m a b = .error pix2pixErrMsg := by
  have hne := shape_ne_of_channel_ne hca hcb (by decide)
  unfold mergeKeyAB
  rw [if_pos ⟨hne, hd⟩, hca, hcb]
  norm_num

theorem mergeKeyAB_9_4 (f2 : Tensor → Tensor → ℤ → Tensor) (m : ℤ) (a b : Tensor)
    (hd : dropDim1 a.shape = dropDim1 b.shape)
    (hca : a.shape.get? 1 = some 9) (hcb : b.shape.get? 1 = some 4)
    (hr : 4 ≤ a.shape.length) :
    mergeKeyAB f2 m a b
      = .ok (assignCh4 a (f2 (sliceCh4 a) b m), true, false) := by
  have hne := shape_ne_of_channel_ne hca hcb (by decide)
  unfold mergeKeyAB
  rw [if_pos ⟨hne, hd⟩, hca, hcb]
  norm_num [hr]

theorem mergeKeyAB_8_4 (f2 : Tensor → Tensor → ℤ → Tensor) (m : ℤ) (a b : Tensor)
    (hd : dropDim1 a.shape = dropDim1 b.shape)
    (hca : a.shape.get? 1 = some 8) (hcb : b.shape.get? 1 = some 4)
    (hr : 4 ≤ a.shape.length) :
    mergeKeyAB f2 m a b
      = .ok (assignCh4 a (f2 (sliceCh4 a) b m), false, true) := by
  have hne := shape_ne_of_channel_ne hca hcb (by decide)
  unfold mergeKeyAB
  rw [if_pos ⟨hne, hd⟩, hca, hcb]
  norm_num [hr]

/-! ## Reading back the channels of a slice assignment -/

theorem assignPerBlock_read_high (cs keep : Nat) (n : Nat) :
    ∀ (i q t : Nat) (aL mL : List ℤ),
      aL.length = n * cs → mL.length = n * keep → i < n →
      keep ≤ q → q + t ≤ cs →
      ((assignPerBlock cs keep n aL mL).drop (i * cs + q)).take t
        = (aL.drop (i * cs + q)).take t := by
  induction n with
  | zero => intro i q t aL mL _ _ hi _ _; exact absurd hi (Nat.not_lt_zero i)
  | succ n ih =>
    intro i q t aL mL ha hm hi hkq hqt
    rw [Nat.succ_mul] at ha hm
    have hX : (mL.take keep).length = keep := by rw [List.length_take]; omega
    have hY : ((aL.take cs).drop keep).length = cs - keep := by
      rw [List.length_drop, List.length_take]; omega
    have hXY : (mL.take keep ++ (aL.take cs).drop keep).length = cs := by
      rw [List.length_append, hX, hY]; omega
    cases i with
    | zero =>
      simp only [assignPerBlock, Nat.zero_mul, Nat.zero_add]
      rw [List.drop_append_eq_append_drop, hXY, List.take_append_eq_append_take]
      have hdXY : ((mL.take keep ++ (aL.take cs).drop keep).drop q).length
          = cs - q := by rw [List.length_drop, hXY]
      rw [hdXY, show t - (cs - q) = 0 from by omega, List.take_zero,
        List.append_nil, List.drop_append_eq_append_drop, hX,
        List.drop_eq_nil_of_le (le_of_eq_of_le hX hkq), List.nil_append,
        List.drop_drop, show keep + (q - keep) = q from by omega,
        List.drop_take, List.take_take, show t ⊓ (cs - q) = t from by omega]
    | succ i =>
      simp only [assignPerBlock]
      have hsm : (i + 1) * cs = i * cs + cs := Nat.succ_mul i cs
      rw [List.drop_append_eq_append_drop, hXY,
        List.drop_eq_nil_of_le (by rw [hXY, hsm]; omega), List.nil_append]
      rw [show (i + 1) * cs + q - cs = i * cs + q from by rw [hsm]; omega]
      conv_rhs => rw [show (i + 1) * cs + q = cs + (i * cs + q) from by
        rw [hsm]; omega, ← List.drop_drop]
      exact ih i q t (aL.drop cs) (mL.drop keep)
        (by rw [List.length_drop]; omega) (by rw [List.length_drop]; omega)
        (by omega) hkq hqt

theorem assignPerBlock_read_low (cs keep : Nat) (n : Nat) :
    ∀ (i q t : Nat) (aL mL : List ℤ),
      aL.length = n * cs → mL.length = n * keep → i < n →
      q + t ≤ keep → keep ≤ cs →
      ((assignPerBlock cs keep n aL mL).drop (i * cs + q)).take t
        = (mL.drop (i * keep + q)).take t := by
  induction n with
  | zero => intro i q t aL mL _ _ hi _ _; exact absurd hi (Nat.not_lt_zero i)
  | succ n ih =>
    intro i q t aL mL ha hm hi hqt hkc
    rw [Nat.succ_mul] at ha hm
    have hX : (mL.take keep).length = keep := by rw [List.length_take]; omega
    have hY : ((aL.take cs).drop keep).length = cs - keep := by
      rw [List.length_drop, List.length_take]; omega
    have hXY : (mL.take keep ++ (aL.take cs).drop keep).length = cs := by
      rw [List.length_append, hX, hY]; omega
    cases i with
    | zero =>
      simp only [assignPerBlock, Nat.zero_mul, Nat.zero_add]
      rw [List.drop_append_eq_append_drop, hXY, List.take_append_eq_append_take]
      have hdXY : ((mL.take keep ++ (aL.take cs).drop keep).drop q).length
          = cs - q := by rw [List.length_drop, hXY]
      rw [hdXY, show t - (cs - q) = 0 from by omega, List.take_zero,
        List.append_nil, List.drop_append_eq_append_drop, hX,
        List.take_append_eq_append_take]
      have hdX : ((mL.take keep).drop q).length = keep - q := by
        rw [List.length_drop, hX]
      rw [hdX, show t - (keep - q) = 0 from by omega, List.take_zero,
        List.append_nil, List.drop_take, List.take_take,
        show t ⊓ (keep - q) = t from by omega]
    | succ i =>
      simp only [assignPerBlock]
      have hsm : (i + 1) * cs = i * cs + cs := Nat.succ_mul i cs
      have hsk : (i + 1) * keep = i * keep + keep := Nat.succ_mul i keep
      rw [List.drop_append_eq_append_drop, hXY,
        List.drop_eq_nil_of_le (by rw [hXY, hsm]; omega), List.nil_append]
      rw [show (i + 1) * cs + q - cs = i * cs + q from by rw [hsm]; omega]
      conv_rhs => rw [show (i + 1) * keep + q = keep + (i * keep + q) from by
        rw [hsk]; omega, ← List.drop_drop]
      exact ih i q t (aL.drop cs) (mL.drop keep)
        (by rw [List.length_drop]; omega) (by rw [List.length_drop]; omega)
        (by omega) hqt hkc

/-- Channels `4 ≤ j < n1` of `a[:, 0:4, ...] = mg` read back as the channels
of `a`. -/
theorem readCh_assignCh4_high (a mg : Tensor) (n0 n1 : Nat) (r2 : List Nat)
    (hsh : a.shape = n0 :: n1 :: r2) (hwa : a.wf)
    (hms : mg.shape = a.shape.set 1 4) (hmw : mg.wf)
    (i j : Nat) (hi : i < n0) (hj4 : 4 ≤ j) (hjn : j < n1) :
    readCh (assignCh4 a mg) i j = readCh a i j := by
  unfold Tensor.wf at hwa hmw
  rw [hsh] at hms
  rw [hms] at hmw
  rw [hsh] at hwa
  simp only [readCh, assignCh4, blockSize, chanSize, hsh, List.headD,
    List.drop, List.prod_cons] at *
  refine assignPerBlock_read_high ((n1 :: r2).prod) (4 * r2.prod) n0 i
    (j * r2.prod) (r2.prod) a.data mg.data ?_ ?_ hi ?_ ?_
  · rw [hwa, List.prod_cons]
  · rw [hmw]
    show (n0 :: 4 :: r2).prod = n0 * (4 * r2.prod)
    rw [List.prod_cons, List.prod_cons]
  · exact Nat.mul_le_mul_right _ hj4
  · calc j * r2.prod + r2.prod = (j + 1) * r2.prod := by rw [Nat.succ_mul]
    _ ≤ n1 * r2.prod := Nat.mul_le_mul_right _ hjn
    _ = (n1 :: r2).prod := by rw [List.prod_cons]

/-- Channels `j < 4` of `a[:, 0:4, ...] = mg` read back as the channels of
`mg`. -/
theorem readCh_assignCh4_low (a mg : Tensor) (n0 n1 : Nat) (r2 : List Nat)
    (hsh : a.shape = n0 :: n1 :: r2) (hwa : a.wf) (hn1 : 4 ≤ n1)
    (hms : mg.shape = a.shape.set 1 4) (hmw : mg.wf)
    (i j : Nat) (hi : i < n0) (hj : j < 4) :
    readCh (assignCh4 a mg) i j = readCh mg i j := by
  unfold Tensor.wf at hwa hmw
  rw [hsh] at hms
  rw [hms] at hmw
  rw [hsh] at hwa
  simp only [readCh, assignCh4, blockSize, chanSize, hsh, hms, List.headD,
    List.drop, List.prod_cons, List.set] at *
  refine assignPerBlock_read_low ((n1 :: r2).prod) (4 * r2.prod) n0 i
    (j * r2.prod) (r2.prod) a.data mg.data ?_ ?_ hi ?_ ?_
  · rw [hwa, List.prod_cons]
  · rw [hmw]
  · calc j * r2.prod + r2.prod = (j + 1) * r2.prod := by rw [Nat.succ_mul]
    _ ≤ 4 * r2.prod := Nat.mul_le_mul_right _ hj
  · rw [List.prod_cons]
    exact Nat.mul_le_mul_right _ hn1

/-! ## Parameters and external collaborators of `run_modelmerger` -/

/-- The user-chosen parameters of `run_modelmerger` that the merge core
reads (model names, metadata flags and config source only feed validation,
filename and metadata assembly, which never touch the weight maps).
`discard_weights` is `none` when the regex text is empty (falsy in Python),
and otherwise the match predicate of the user-supplied regex. -/
structure MergeParams where
  interp_method : String
  multiplier : ℤ
  save_u : String
  save_v : String
  save_t : String
  calc_fp32 : Bool
  bake_in_vae : String
  bake_in_te : List String
  discard_weights : Option (String → Bool)

/-- External collaborators: the torch dtype casts (`tensor.to(...)`,
floating-point rounding treated as opaque value transforms), the
architecture-tag-driven key remapping performed inside
`backend.loader.replace_state_dict`, and the externally loaded VAE /
text-encoder source dicts (`sd_vae.load_torch_file`,
`sd_models.load_torch_file(module_list[te])`). -/
structure ExternalFns where
  toF32 : Tensor → Tensor
  toBF16 : Tensor → Tensor
  toF16 : Tensor → Tensor
  toE4M3 : Tensor → Tensor
  toE5M2 : Tensor → Tensor
  remapVae : String → String
  remapTe : String → String
  vaeSource : ThetaMap
  teSource : String → ThetaMap

/-! ## `load_model`: load-time stripping -/

/-- The `strip` bitmask computed at the top of `load_model`. -/
def stripBits (p : MergeParams) : Nat :=
  (if (p.save_t = "None (remove)" ∨ p.interp_method = "Extract Unet"
        ∨ p.interp_method = "Extract VAE")
      ∧ "Built in (A)" ∉ p.bake_in_te then 1 else 0)
  + (if (p.save_v = "None (remove)" ∨ p.interp_method = "Extract Unet"
        ∨ p.interp_method = "Extract Text encoder(s)")
      ∧ p.bake_in_vae ≠ "Built in (A)" then 2 else 0)
  + (if p.save_u = "None (remove)" ∨ p.interp_method = "Extract VAE"
      ∨ p.interp_method = "Extract Text encoder(s)" then 4 else 0)

/-- The per-case strip regex of `load_model` (the `match strip:` block);
each case is the alternation of the marker sets of the set bits. -/
def stripPred (strip : Nat) (key : String) : Bool :=
  match strip with
  | 1 => boundarySearch teStripMarkers key
  | 2 => boundarySearch vaeStripMarkers key
  | 3 => boundarySearch (teStripMarkers ++ vaeStripMarkers) key
  | 4 => boundarySearch unetStripMarkers key
  | 5 => boundarySearch (teStripMarkers ++ unetStripMarkers) key
  | 6 => boundarySearch (vaeStripMarkers ++ unetStripMarkers) key
  | 7 => boundarySearch (teStripMarkers ++ vaeStripMarkers ++ unetStripMarkers) key
  | _ => false

/-- `load_model` on an already-deserialized dict (`sd_models.load_torch_file`
is the external reader): strip unwanted sub-blocks, apply the user discard
regex, optionally upcast every value to float32. -/
def load_model (p : MergeParams) (toF32 : Tensor → Tensor) (theta : ThetaMap) :
    ThetaMap :=
  let strip := stripBits p
  let theta := if strip > 0 then theta.filter (fun kv => !stripPred strip kv.1)
    else theta
  let theta := match p.discard_weights with
    | none => theta
    | some disc => theta.filter (fun kv => !disc kv.1)
  if p.calc_fp32 then theta.map (fun kv => (kv.1, toF32 kv.2)) else theta

/-! ## Architecture probe -/

def sd15_test_key : String :=
  "model.diffusion_model.output_blocks.10.0.emb_layers.1.bias"

def sdxl_test_key : String :=
  "model.diffusion_model.output_blocks.8.0.emb_layers.1.bias"

def flux_test_key : String :=
  "model.diffusion_model.double_blocks.0.img_attn.norm.key_norm.scale"

/-- The family probe over the primary store: first present test key wins
(SD1.5, then SDXL, then FLUX); `none` when the architecture is unknown. -/
def probeUnetTestKey (theta_0 : ThetaMap) : Option String :=
  if hasKey theta_0 sd15_test_key then some sd15_test_key
  else if hasKey theta_0 sdxl_test_key then some sdxl_test_key
  else if hasKey theta_0 flux_test_key then some flux_test_key
  else none

/-! ## Baking (SubmoduleBaker) -/

/-- The `[0.0]` placeholder stored under the probe key. -/
def probePlaceholder : Tensor := ⟨[1], [0]⟩

/-- Modelled from the spec: `replace_state_dict` lives in
`backend/loader.py`, which is not among the sources here (only its caller
is). Per §4.5 of the spec it remaps the source map's keys into the target
architecture's key namespace driven by the architecture tag (the opaque
renaming `remap`), merging them into the probe map it was given, and when
the architecture tag is unknown the overlay is skipped entirely (no error):
the probe map is returned unchanged. The probe map is keyed by
`Option String` because the Python dict key is `unet_test_key`, which is
`None` when the probe failed. -/
def replace_state_dict (remap : String → String)
    (sd : List (Option String × Tensor)) (asd : ThetaMap)
    (tag : Option String) : List (Option String × Tensor) :=
  match tag with
  | none => sd
  | some _ => sd ++ asd.map (fun kv => (some (remap kv.1), kv.2))

/-- `for key in converted.keys(): theta_0[key] = converted[key]` (the `none`
case cannot occur: the probe key has been popped before the overlay). -/
def overlayConverted (theta_0 : ThetaMap)
    (converted : List (Option String × Tensor)) : ThetaMap :=
  converted.foldl (fun θ kv =>
    match kv.1 with
    | some s => insertT θ s kv.2
    | none => θ) theta_0

/-- The `bake in vae` block: guard on the source name, build the singleton
probe dict `{unet_test_key: [0.0]}`, remap, `pop(unet_test_key)`, overlay. -/
def bakeVaeStep (p : MergeParams) (remapVae : String → String)
    (vaeSource : ThetaMap) (unet_test_key : Option String)
    (theta_0 : ThetaMap) : ThetaMap :=
  if ¬ strContains p.bake_in_vae "None" ∧ ¬ strContains p.bake_in_vae "Built in" then
    let converted : List (Option String × Tensor) := [(unet_test_key, probePlaceholder)]
    let converted := replace_state_dict remapVae converted vaeSource unet_test_key
    let converted := converted.filter (fun kv => kv.1 ≠ unet_test_key)
    overlayConverted theta_0 converted
  else theta_0

/-- One iteration of the `bake in text encoders` loop. -/
def bakeTeStep (remapTe : String → String) (teSource : String → ThetaMap)
    (unet_test_key : Option String) (theta_0 : ThetaMap) (te : String) :
    ThetaMap :=
  let converted : List (Option String × Tensor) := [(unet_test_key, probePlaceholder)]
  let converted := replace_state_dict remapTe converted (teSource te) unet_test_key
  let converted := converted.filter (fun kv => kv.1 ≠ unet_test_key)
  overlayConverted theta_0 converted

/-- The `bake in text encoders` block: guard (`bake_in_te != [] and
"Built in" not in bake_in_te`, a list-membership test), then bake each
selected source in order. -/
def bakeTeAll (p : MergeParams) (remapTe : String → String)
    (teSource : String → ThetaMap) (unet_test_key : Option String)
    (theta_0 : ThetaMap) : ThetaMap :=
  if p.bake_in_te ≠ [] ∧ "Built in" ∉ p.bake_in_te then
    p.bake_in_te.foldl (bakeTeStep remapTe teSource unet_test_key) theta_0
  else theta_0

/-! ## Save-policy precision casting -/

/-- The save/recast pattern for the text-encoder slot of the save loop
(narrower than the load-time strip pattern: no `cond_stage_model.model`). -/
def isTeSaveKey (k : String) : Bool :=
  boundarySearch teSaveMarkers k

/-- One policy application of the `saves = [0, save_u, 1, save_v, 2, save_t]`
loop, with the regex that the preceding integer case installed. A policy
string that is neither a precision name nor `"None"`/`"No change"` falls
through the `case _: pass` arm. -/
def applySaveCast (pred : String → Bool) (save : String) (fns : ExternalFns)
    (θ : ThetaMap) : ThetaMap :=
  if save ≠ "None" ∧ save ≠ "No change" then
    match save with
    | "bfloat16" => θ.map (fun kv => (kv.1, if pred kv.1 then fns.toBF16 kv.2 else kv.2))
    | "float16" => θ.map (fun kv => (kv.1, if pred kv.1 then fns.toF16 kv.2 else kv.2))
    | "fp8e4m3" => θ.map (fun kv => (kv.1, if pred kv.1 then fns.toE4M3 kv.2 else kv.2))
    | "fp8e5m2" => θ.map (fun kv => (kv.1, if pred kv.1 then fns.toE5M2 kv.2 else kv.2))
    | _ => θ
  else θ

/-- The save loop unrolled: the integer items `0, 1, 2` always pass the
guard and install the unet / vae / text-encoder regex right before the
corresponding policy string is processed. -/
def saveCastLoop (p : MergeParams) (fns : ExternalFns) (θ : ThetaMap) :
    ThetaMap :=
  let θ := applySaveCast isUnetSaveKey p.save_u fns θ
  let θ := applySaveCast isVaeStripKey p.save_v fns θ
  applySaveCast isTeSaveKey p.save_t fns θ

/-! ## The orchestrator -/

/-- The methods of the `theta_funcs` table; any other string raises
`KeyError` at the table lookup. -/
def knownInterpMethods : List String :=
  ["None", "Weighted sum", "Add difference",
   "Extract Unet", "Extract VAE", "Extract Text encoder(s)"]

/-- `theta_func2` of the `theta_funcs` table. -/
def theta_func2_of (m : String) : Option (Tensor → Tensor → ℤ → Tensor) :=
  if m = "Weighted sum" then some weighted_sum
  else if m = "Add difference" then some add_difference
  else none

/-- What `run_modelmerger` hands to the external serializer on success: the
final weight map and the two result flags (which also drive the
`.inpainting` / `.instruct-pix2pix` filename suffixes). Filename and
metadata assembly are not modelled: they never touch the weight map. -/
structure SaveOut where
  outMap : ThetaMap
  result_is_inpainting_model : Bool
  result_is_instruct_pix2pix_model : Bool
deriving DecidableEq, Repr

/-- The second half of `run_modelmerger`, from the architecture probe on:
branch to extract-save (`if "Extract" in interp_method`) or the A/B merge
(`if theta_1:`, false for `None` and for an empty loaded dict), then bake,
re-apply the discard regex, recast, and return the map that is saved. -/
def mergeAndFinish (p : MergeParams) (fns : ExternalFns)
    (theta_0 : ThetaMap) (theta_1? : Option ThetaMap) : Except String SaveOut :=
  let unet_test_key := probeUnetTestKey theta_0
  if strContains p.interp_method "Extract" then
    .ok ⟨theta_0, false, false⟩
  else
    let merged : Except String (ThetaMap × Bool × Bool) :=
      match theta_1? with
      | some t1 =>
        if t1 = [] then .ok (theta_0, false, false)
        else
          match theta_func2_of p.interp_method with
          | some f2 => mergeAB f2 p.multiplier theta_0 t1
          | none => .ok (theta_0, false, false)
      | none => .ok (theta_0, false, false)
    match merged with
    | .error msg => .error msg
    | .ok (theta_0m, flag1, flag2) =>
      let theta_0b := bakeVaeStep p fns.remapVae fns.vaeSource unet_test_key theta_0m
      let theta_0t := bakeTeAll p fns.remapTe fns.teSource unet_test_key theta_0b
      let theta_0d := match p.discard_weights with
        | none => theta_0t
        | some disc => theta_0t.filter (fun kv => !disc kv.1)
      .ok ⟨saveCastLoop p fns theta_0d, flag1, flag2⟩

/-- The merge core of `run_modelmerger` on already-deserialized inputs:
load (with load-time strip) B, C and A, fold the B/C difference, then
`mergeAndFinish`. A thrown Python exception is an `Except.error`; in that
case nothing is written to disk. -/
def run_modelmerger_model (p : MergeParams) (fns : ExternalFns)
    (rawA : ThetaMap) (rawB rawC : Option ThetaMap) : Except String SaveOut :=
  if p.interp_method ∉ knownInterpMethods then
    .error "KeyError: unknown interpolation method"
  else
    let step1 : Except String (Option ThetaMap) :=
      match theta_func2_of p.interp_method, rawB with
      | some _, some raw => .ok (some (load_model p fns.toF32 raw))
      | some _, none => .error "Failed: Merging requires a secondary model."
      | none, _ => .ok none
    match step1 with
    | .error msg => .error msg
    | .ok theta_1a =>
      let step2 : Except String (Option ThetaMap) :=
        if p.interp_method = "Add difference" then
          match rawC, theta_1a with
          | some raw, some t1 =>
            .ok (some (mergeBC get_difference t1 (load_model p fns.toF32 raw)))
          | some _, none => .error "AttributeError"
          | none, _ => .error "Failed: Interpolation method requires a tertiary model."
        else .ok theta_1a
      match step2 with
      | .error msg => .error msg
      | .ok theta_1b =>
        mergeAndFinish p fns (load_model p fns.toF32 rawA) theta_1b

/-- A successful run factors through `mergeAndFinish` applied to the loaded
primary store (with some secondary operand). -/
theorem run_ok_to_finish (p : MergeParams) (fns : ExternalFns)
    (rawA : ThetaMap) (rawB rawC : Option ThetaMap) (out : SaveOut)
    (hok : run_modelmerger_model p fns rawA rawB rawC = .ok out) :
    ∃ theta_1?, mergeAndFinish p fns (load_model p fns.toF32 rawA) theta_1?
      = .ok out := by
  unfold run_modelmerger_model at hok
  split at hok
  · exact Except.noConfusion hok
  · split at hok <;> (try simp only [] at hok) <;>
      first
        | exact Except.noConfusion hok
        | exact ⟨_, hok⟩
        | (split at hok <;> (try simp only [] at hok) <;>
            first
              | exact Except.noConfusion hok
              | exact ⟨_, hok⟩
              | (split at hok <;> (try simp only [] at hok) <;>
                  first
                    | exact Except.noConfusion hok
                    | exact ⟨_, hok⟩))

/-! ## Map-level lemmas -/

theorem lookupT_insertT (θ : ThetaMap) (s : String) (v : Tensor) (k : String) :
    lookupT (insertT θ s v) k = if s = k then some v else lookupT θ k := by
  induction θ with
  | nil => simp [insertT, lookupT]
  | cons e rest ih =>
    obtain ⟨k1, w⟩ := e
    by_cases h1 : k1 = s <;> by_cases h2 : s = k <;> by_cases h3 : k1 = k <;>
      simp_all [insertT, lookupT]

theorem lookupT_filter_key (g : String → Bool) (l : ThetaMap) (k : String) :
    lookupT (l.filter (fun kv => g kv.1)) k
      = if g k then lookupT l k else none := by
  induction l with
  | nil => simp [lookupT]
  | cons e rest ih =>
    obtain ⟨k1, v1⟩ := e
    by_cases h1 : k1 = k <;> cases hg : g k1 <;>
      simp_all [List.filter_cons, lookupT]

theorem lookupT_filter_none (f : String × Tensor → Bool) (l : ThetaMap)
    (k : String) (h : lookupT l k = none) :
    lookupT (l.filter f) k = none := by
  induction l with
  | nil => simp [lookupT]
  | cons e rest ih =>
    obtain ⟨k1, v1⟩ := e
    rw [lookupT] at h
    by_cases h1 : k1 = k
    · rw [if_pos h1] at h; exact Option.noConfusion h
    · rw [if_neg h1] at h
      cases hf : f (k1, v1) with
      | true => simp only [List.filter_cons, hf, if_true, lookupT, if_neg h1]; exact ih h
      | false => simp only [List.filter_cons, hf, lookupT]; exact ih h

theorem lookupT_map_fst (f : String × Tensor → String × Tensor)
    (hf : ∀ kv, (f kv).1 = kv.1) (l : ThetaMap) (k : String)
    (h : lookupT l k = none) : lookupT (l.map f) k = none := by
  induction l with
  | nil => simp [lookupT]
  | cons e rest ih =>
    obtain ⟨k1, v1⟩ := e
    rw [lookupT] at h
    by_cases h1 : k1 = k
    · rw [if_pos h1] at h; exact Option.noConfusion h
    · rw [if_neg h1] at h
      rw [List.map_cons, lookupT]
      simp only [hf (k1, v1)]
      rw [if_neg h1]
      exact ih h

theorem applySaveCast_preserves_none (pred : String → Bool) (save : String)
    (fns : ExternalFns) (θ : ThetaMap) (k : String)
    (h : lookupT θ k = none) :
    lookupT (applySaveCast pred save fns θ) k = none := by
  unfold applySaveCast
  split
  · split
    · exact lookupT_map_fst
        (fun kv => (kv.1, if pred kv.1 then fns.toBF16 kv.2 else kv.2))
        (fun kv => rfl) θ k h
    · exact lookupT_map_fst
        (fun kv => (kv.1, if pred kv.1 then fns.toF16 kv.2 else kv.2))
        (fun kv => rfl) θ k h
    · exact lookupT_map_fst
        (fun kv => (kv.1, if pred kv.1 then fns.toE4M3 kv.2 else kv.2))
        (fun kv => rfl) θ k h
    · exact lookupT_map_fst
        (fun kv => (kv.1, if pred kv.1 then fns.toE5M2 kv.2 else kv.2))
        (fun kv => rfl) θ k h
    · exact h
  · exact h

theorem saveCastLoop_preserves_none (p : MergeParams) (fns : ExternalFns)
    (θ : ThetaMap) (k : String) (h : lookupT θ k = none) :
    lookupT (saveCastLoop p fns θ) k = none := by
  unfold saveCastLoop
  exact applySaveCast_preserves_none _ _ _ _ _
    (applySaveCast_preserves_none _ _ _ _ _
      (applySaveCast_preserves_none _ _ _ _ _ h))

theorem overlayConverted_preserves_none (conv : List (Option String × Tensor)) :
    ∀ (θ : ThetaMap) (k : String), lookupT θ k = none →
      (∀ e ∈ conv, ∀ s, e.1 = some s → s ≠ k) →
      lookupT (overlayConverted θ conv) k = none := by
  induction conv with
  | nil => intro θ k h _; exact h
  | cons e rest ih =>
    intro θ k h hc
    obtain ⟨ko, v⟩ := e
    cases ko with
    | none =>
      exact ih θ k h (fun e he s hs => hc e (List.mem_cons_of_mem _ he) s hs)
    | some s =>
      refine ih (insertT θ s v) k ?_ (fun e he s2 hs => hc e (List.mem_cons_of_mem _ he) s2 hs)
      rw [lookupT_insertT,
        if_neg (hc (some s, v) (List.mem_cons_self _ _) s rfl), h]

theorem bakeTeStep_preserves_none (r : String → String)
    (src : String → ThetaMap) (ut : Option String) (θ : ThetaMap) (te : String)
    (k : String) (h : lookupT θ k = none) (hr : ∀ x, r x ≠ k) :
    lookupT (bakeTeStep r src ut θ te) k = none := by
  unfold bakeTeStep replace_state_dict
  cases ut with
  | none => simpa using h
  | some u =>
    refine overlayConverted_preserves_none _ θ k h ?_
    intro e he s hs
    rw [List.mem_filter] at he
    obtain ⟨hmem, hne⟩ := he
    rw [List.mem_append] at hmem
    rcases hmem with hmem | hmem
    · rw [List.mem_singleton] at hmem
      subst hmem
      exact absurd rfl (of_decide_eq_true hne)
    · rw [List.mem_map] at hmem
      obtain ⟨kv, -, hkv⟩ := hmem
      rw [← hkv] at hs
      simp only [Option.some.injEq] at hs
      rw [← hs]
      exact hr kv.1

theorem bakeTeAll_preserves_none (p : MergeParams) (r : String → String)
    (src : String → ThetaMap) (ut : Option String) (θ : ThetaMap)
    (k : String) (h : lookupT θ k = none) (hr : ∀ x, r x ≠ k) :
    lookupT (bakeTeAll p r src ut θ) k = none := by
  unfold bakeTeAll
  split
  · clear * - h hr
    induction p.bake_in_te generalizing θ with
    | nil => exact h
    | cons te rest ih =>
      exact ih _ (bakeTeStep_preserves_none r src ut θ te k h hr)
  · exact h

/-- `boundarySearch` against an alternation is the disjunction of the
per-marker-set searches. -/
theorem scanMarkers_append (ps qs : List (List Char)) :
    ∀ (b : Bool) (s : List Char),
      scanMarkers (ps ++ qs) b s = (scanMarkers ps b s || scanMarkers qs b s) := by
  intro b s
  induction s generalizing b with
  | nil => rfl
  | cons c cs ih =>
    simp only [scanMarkers, List.any_append, ih]
    cases scanMarkers ps (isWordChar c) cs <;>
      cases scanMarkers qs (isWordChar c) cs <;>
      cases ps.any (fun p => markerAt p (c :: cs)) <;>
      cases qs.any (fun p => markerAt p (c :: cs)) <;>
      cases b <;> rfl

theorem boundarySearch_append (ps qs : List String) (k : String) :
    boundarySearch (ps ++ qs) k = (boundarySearch ps k || boundarySearch qs k) := by
  unfold boundarySearch
  rw [List.map_append, scanMarkers_append]

/-- Every strip case whose bit 2 is set removes every vae-classified key. -/
theorem stripPred_of_vae (n : Nat) (hn : n = 2 ∨ n = 3 ∨ n = 6 ∨ n = 7)
    (k : String) (hk : isVaeStripKey k = true) : stripPred n k = true := by
  have hv : boundarySearch vaeStripMarkers k = true := hk
  rcases hn with h | h | h | h <;> subst h <;> unfold stripPred <;>
    simp only [boundarySearch_append, hv, Bool.or_true, Bool.true_or]

/-! ## Lemmas for the B/C pass -/

theorem mergeBCgo_zero (f1 : Tensor → Tensor → Tensor) (θ2 : ThetaMap)
    (l : List (String × Tensor)) (k : String) (b : Tensor)
    (hb : lookupT l k = some b) (hc : strContains k "model" = true)
    (hs : k ∉ checkpoint_dict_skip_on_merge) (h2 : lookupT θ2 k = none) :
    lookupT (mergeBCgo f1 θ2 l) k = some (zeros_like b) := by
  induction l with
  | nil => exact Option.noConfusion hb
  | cons e rest ih =>
    obtain ⟨k1, v1⟩ := e
    rw [lookupT] at hb
    by_cases h1 : k1 = k
    · subst h1
      rw [if_pos rfl] at hb
      injection hb with hb
      subst hb
      simp only [mergeBCgo, if_neg hs, hc, if_true, h2, lookupT, if_pos rfl]
    · rw [if_neg h1] at hb
      unfold mergeBCgo
      by_cases hsk1 : k1 ∈ checkpoint_dict_skip_on_merge
      · rw [if_pos hsk1, lookupT, if_neg h1]
        exact ih hb
      · rw [if_neg hsk1]
        split
        · split <;> (rw [lookupT, if_neg h1]; exact ih hb)
        · rw [lookupT, if_neg h1]
          exact ih hb

/-- C7: for all same-shape tensor pairs `a` and `b`, `weighted_sum(a, b, 0)`
equals `a` elementwise and `weighted_sum(a, b, 1)` equals `b` elementwise. -/
theorem C7_weighted_sum_endpoints (a b : Tensor) (hs : a.shape = b.shape)
    (ha : a.wf) (hb : b.wf) :
    weighted_sum a b 0 = a ∧ weighted_sum a b 1 = b := by
  obtain ⟨ash, ad⟩ := a
  obtain ⟨bsh, bd⟩ := b
  simp only [Tensor.wf] at ha hb
  simp only at hs
  have hlen : ad.length = bd.length := by rw [ha, hb, hs]
  constructor
  · show Tensor.mk ash
      (List.zipWith (fun x y => x + y)
        (ad.map (fun x => ((1 : ℤ) - 0) * x)) (bd.map (fun x => (0 : ℤ) * x)))
      = Tensor.mk ash ad
    congr 1
    simp only [sub_zero, map_one_mul]
    exact zipWith_add_map_zero_right ad bd (le_of_eq hlen)
  · show Tensor.mk ash
      (List.zipWith (fun x y => x + y)
        (ad.map (fun x => ((1 : ℤ) - 1) * x)) (bd.map (fun x => (1 : ℤ) * x)))
      = Tensor.mk bsh bd
    congr 1
    simp only [sub_self, map_one_mul]
    exact zipWith_map_zero_add_left ad bd (le_of_eq hlen.symm)

/-- Witness for C7 at a concrete same-shape pair. -/
theorem C7_weighted_sum_endpoints_witness :
    weighted_sum ⟨[2], [1, 2]⟩ ⟨[2], [3, 5]⟩ 0 = ⟨[2], [1, 2]⟩ ∧
    weighted_sum ⟨[2], [1, 2]⟩ ⟨[2], [3, 5]⟩ 1 = ⟨[2], [3, 5]⟩ :=
  C7_weighted_sum_endpoints ⟨[2], [1, 2]⟩ ⟨[2], [3, 5]⟩ rfl (by decide) (by decide)

/-- C8: for all same-shape tensors `a`, `b`, `c`,
`add_difference(a, difference(b, c), 0)` equals `a` elementwise. -/
theorem C8_add_difference_zero (a b c : Tensor) (hab : a.shape = b.shape)
    (hac : a.shape = c.shape) (ha : a.wf) (hb : b.wf) (hc : c.wf) :
    add_difference a (get_difference b c) 0 = a := by
  obtain ⟨ash, ad⟩ := a
  obtain ⟨bsh, bd⟩ := b
  obtain ⟨csh, cd⟩ := c
  simp only [Tensor.wf] at ha hb hc
  simp only at hab hac
  show Tensor.mk ash
    (List.zipWith (fun x y => x + y) ad
      ((List.zipWith (fun x y => x - y) bd cd).map (fun x => (0 : ℤ) * x)))
    = Tensor.mk ash ad
  congr 1
  refine zipWith_add_map_zero_right ad _ ?_
  rw [List.length_zipWith]
  have h1 : ad.length = bd.length := by rw [ha, hb, hab]
  have h2 : ad.length = cd.length := by rw [ha, hc, hac]
  omega

/-- Witness for C8 at a concrete same-shape triple. -/
theorem C8_add_difference_zero_witness :
    add_difference ⟨[3], [1, 2, 3]⟩ (get_difference ⟨[3], [9, 8, 7]⟩ ⟨[3], [4, 5, 6]⟩) 0
      = ⟨[3], [1, 2, 3]⟩ :=
  C8_add_difference_zero ⟨[3], [1, 2, 3]⟩ ⟨[3], [9, 8, 7]⟩ ⟨[3], [4, 5, 6]⟩
    rfl rfl (by decide) (by decide) (by decide)

/-! ## Concrete fixtures shared by witnesses and counterexamples -/

/-- A one-element tensor with value 1. -/
def tEx1 : Tensor := ⟨[1], [1]⟩

/-- A one-element tensor with value 3. -/
def tEx3 : Tensor := ⟨[1], [3]⟩

/-- External collaborators that do nothing interesting. -/
def idFns : ExternalFns := ⟨id, id, id, id, id, id, id, [], fun _ => []⟩

/-- A plain weighted-sum request with every save policy `"No change"` and no
baking or discard. -/
def noChangeWSParams : MergeParams :=
  ⟨"Weighted sum", 2, "No change", "No change", "No change", false, "None", [], none⟩

/-- A weighted-sum request with VAE save policy `"None (remove)"` and VAE
bake source `"Built in (A)"`. -/
def builtInAParams : MergeParams :=
  ⟨"Weighted sum", 2, "No change", "None (remove)", "No change", false,
   "Built in (A)", [], none⟩

/-- A request that asks for external VAE and text-encoder baking. -/
def bakeReqParams : MergeParams :=
  ⟨"Weighted sum", 2, "No change", "No change", "No change", false,
   "myvae", ["myte"], none⟩

/-- External collaborators with non-empty bake sources. -/
def bakeFns : ExternalFns :=
  ⟨id, id, id, id, id, id, id, [("decoder.w", tEx3)], fun _ => [("te.w", tEx3)]⟩

/-! ## Claim C1 -/

/-- C1 counterexample: under save policies all `"No change"`, a
vae-classified key (`first_stage_model.…`, which contains the substring
`'model'`) present in both A and B is blended by the pairwise merge — the
output value `(1-2)·1 + 2·3 = 5` differs from A's value `1`, so merge
arithmetic is not restricted to backbone-classified keys. -/
theorem C1_counterexample :
    isVaeStripKey "first_stage_model.k" = true
  ∧ run_modelmerger_model noChangeWSParams idFns
      [("first_stage_model.k", tEx1)] (some [("first_stage_model.k", tEx3)]) none
    = .ok ⟨[("first_stage_model.k", ⟨[1], [5]⟩)], false, false⟩
  ∧ (⟨[1], [5]⟩ : Tensor) ≠ tEx1 :=
  ⟨by rfl, by rfl, by decide⟩

/-- C1 (amended): the pairwise A/B merge applies merge arithmetic exactly to
the keys of A that are present in B, contain the substring `'model'` (which
the vae and text-encoder markers `first_stage_model` / `text_model` /
`cond_stage_model` themselves do) and are not position-id skip keys; every
other key of A keeps A's value. -/
theorem C1_amended_merge_restriction (f2 : Tensor → Tensor → ℤ → Tensor)
    (m : ℤ) (θ0 θ1 : ThetaMap) (k : String) (out : ThetaMap) (fl1 fl2 : Bool)
    (hok : mergeAB f2 m θ0 θ1 = .ok (out, fl1, fl2)) :
    ((strContains k "model" = false ∨ lookupT θ1 k = none
        ∨ k ∈ checkpoint_dict_skip_on_merge) →
      lookupT out k = lookupT θ0 k)
  ∧ (∀ a b, lookupT θ0 k = some a → lookupT θ1 k = some b →
      strContains k "model" = true → k ∉ checkpoint_dict_skip_on_merge →
      a.shape = b.shape → lookupT out k = some (f2 a b m)) := by
  constructor
  · intro h
    refine mergeABgo_ok_keep f2 m θ1 θ0 k ?_ out fl1 fl2 hok
    rcases h with h | h | h
    · exact Or.inr (Or.inl h)
    · exact Or.inl h
    · exact Or.inr (Or.inr h)
  · intro a b ha hb hc hs hsh
    exact (mergeABgo_ok_merged f2 m θ1 θ0 k a b (f2 a b m) false false ha hb hc hs
      (mergeKeyAB_same_shape f2 m a b hsh) out fl1 fl2 hok).1

/-- Witness for C1 (amended) at a concrete pair of stores: the FLUX-style
key `vae.k` (no `'model'` substring) keeps A's value while
`first_stage_model.k` is blended. -/
theorem C1_amended_merge_restriction_witness :
    mergeAB weighted_sum 2 [("vae.k", tEx1), ("first_stage_model.k", tEx1)]
        [("vae.k", tEx3), ("first_stage_model.k", tEx3)]
      = .ok ([("vae.k", tEx1), ("first_stage_model.k", weighted_sum tEx1 tEx3 2)],
          false, false)
  ∧ lookupT [("vae.k", tEx1), ("first_stage_model.k", weighted_sum tEx1 tEx3 2)]
      "vae.k"
    = lookupT [("vae.k", tEx1), ("first_stage_model.k", tEx1)] "vae.k"
  ∧ lookupT [("vae.k", tEx1), ("first_stage_model.k", weighted_sum tEx1 tEx3 2)]
      "first_stage_model.k"
    = some (weighted_sum tEx1 tEx3 2) :=
  ⟨by rfl,
   (C1_amended_merge_restriction weighted_sum 2
      [("vae.k", tEx1), ("first_stage_model.k", tEx1)]
      [("vae.k", tEx3), ("first_stage_model.k", tEx3)] "vae.k"
      [("vae.k", tEx1), ("first_stage_model.k", weighted_sum tEx1 tEx3 2)]
      false false (by rfl)).1 (Or.inl (by rfl)),
   (C1_amended_merge_restriction weighted_sum 2
      [("vae.k", tEx1), ("first_stage_model.k", tEx1)]
      [("vae.k", tEx3), ("first_stage_model.k", tEx3)] "first_stage_model.k"
      [("vae.k", tEx1), ("first_stage_model.k", weighted_sum tEx1 tEx3 2)]
      false false (by rfl)).2 tEx1 tEx3 rfl rfl (by rfl) (by decide) rfl⟩

/-! ## Claim C2 -/

/-- C2 counterexample: in the B/C difference pass, a key present in B but
absent from C is set to a same-shape zero tensor, not to
`difference(b, 0) = b`. -/
theorem C2_counterexample :
    mergeBC get_difference [("model.x", ⟨[2], [5, 7]⟩)] []
      = [("model.x", ⟨[2], [0, 0]⟩)]
  ∧ (⟨[2], [0, 0]⟩ : Tensor)
      ≠ get_difference ⟨[2], [5, 7]⟩ (zeros_like ⟨[2], [5, 7]⟩) :=
  ⟨by rfl, by decide⟩

/-- C2 (amended): in the A/B pass keys present only in A are left as-is and
keys present only in B are dropped; in the B/C pass a key of B containing
`'model'` (and not a skip key) that is absent from C is replaced by a
same-shape zero tensor. -/
theorem C2_amended_missing_side (f1 : Tensor → Tensor → Tensor)
    (f2 : Tensor → Tensor → ℤ → Tensor) (m : ℤ) (θ1 θ2 θA θB : ThetaMap)
    (k : String) (out : ThetaMap) (fl1 fl2 : Bool) :
    (∀ b, lookupT θ1 k = some b → strContains k "model" = true →
      k ∉ checkpoint_dict_skip_on_merge → lookupT θ2 k = none →
      lookupT (mergeBC f1 θ1 θ2) k = some (zeros_like b))
  ∧ (mergeAB f2 m θA θB = .ok (out, fl1, fl2) → lookupT θB k = none →
      lookupT out k = lookupT θA k)
  ∧ (mergeAB f2 m θA θB = .ok (out, fl1, fl2) → lookupT θA k = none →
      lookupT out k = none) := by
  refine ⟨?_, ?_, ?_⟩
  · intro b hb hc hs h2
    exact mergeBCgo_zero f1 θ2 θ1 k b hb hc hs h2
  · intro hok hB
    exact mergeABgo_ok_keep f2 m θB θA k (Or.inl hB) out fl1 fl2 hok
  · intro hok hA
    exact mergeABgo_ok_absent f2 m θB θA k hA out fl1 fl2 hok

/-- Witness for C2 (amended) at concrete stores. -/
theorem C2_amended_missing_side_witness :
    lookupT (mergeBC get_difference [("model.x", ⟨[2], [5, 7]⟩)] []) "model.x"
      = some (zeros_like ⟨[2], [5, 7]⟩)
  ∧ lookupT [("a.k", tEx1)] "a.k" = lookupT [("a.k", tEx1)] "a.k"
  ∧ lookupT ([] : ThetaMap) "b.k" = none :=
  ⟨(C2_amended_missing_side get_difference weighted_sum 2
      [("model.x", ⟨[2], [5, 7]⟩)] [] [] [] "model.x" [] false false).1
      ⟨[2], [5, 7]⟩ rfl (by rfl) (by decide) rfl,
   (C2_amended_missing_side get_difference weighted_sum 2 [] []
      [("a.k", tEx1)] [] "a.k" [("a.k", tEx1)] false false).2.1 (by rfl) rfl,
   (C2_amended_missing_side get_difference weighted_sum 2 [] []
      [] [("b.k", tEx3)] "b.k" [] false false).2.2 (by rfl) rfl⟩

/-! ## Claim C3 -/

theorem bakeTeStep_none (r : String → String) (src : String → ThetaMap)
    (θ : ThetaMap) (te : String) : bakeTeStep r src none θ te = θ := rfl

theorem foldl_bakeTeStep_none (r : String → String) (src : String → ThetaMap)
    (l : List String) : ∀ θ : ThetaMap, l.foldl (bakeTeStep r src none) θ = θ := by
  induction l with
  | nil => intro θ; rfl
  | cons te rest ih =>
    intro θ
    rw [List.foldl_cons, bakeTeStep_none]
    exact ih θ

/-- C3: when none of the three family test keys is present in the primary
store (the probe yields `none`), both baking steps leave the working store
unchanged whatever bake sources were requested; the bake functions are
total, so no error is raised. (`replace_state_dict` is spec-modelled: per
§4.5 an unknown architecture tag skips the overlay and returns the probe
map unchanged.) -/
theorem C3_unknown_arch_bake_skipped (p : MergeParams) (fns : ExternalFns)
    (θ0 : ThetaMap) (h : probeUnetTestKey θ0 = none) :
    bakeVaeStep p fns.remapVae fns.vaeSource (probeUnetTestKey θ0) θ0 = θ0
  ∧ bakeTeAll p fns.remapTe fns.teSource (probeUnetTestKey θ0) θ0 = θ0 := by
  rw [h]
  constructor
  · unfold bakeVaeStep
    split
    · rfl
    · rfl
  · unfold bakeTeAll
    split
    · exact foldl_bakeTeStep_none fns.remapTe fns.teSource p.bake_in_te θ0
    · rfl

/-- Witness for C3: a store with none of the test keys, with external VAE
and text-encoder bake sources requested. -/
theorem C3_unknown_arch_bake_skipped_witness :
    probeUnetTestKey [("x", tEx1)] = none
  ∧ bakeVaeStep bakeReqParams bakeFns.remapVae bakeFns.vaeSource
      (probeUnetTestKey [("x", tEx1)]) [("x", tEx1)] = [("x", tEx1)]
  ∧ bakeTeAll bakeReqParams bakeFns.remapTe bakeFns.teSource
      (probeUnetTestKey [("x", tEx1)]) [("x", tEx1)] = [("x", tEx1)] :=
  ⟨by rfl,
   (C3_unknown_arch_bake_skipped bakeReqParams bakeFns [("x", tEx1)] (by rfl)).1,
   (C3_unknown_arch_bake_skipped bakeReqParams bakeFns [("x", tEx1)] (by rfl)).2⟩

/-! ## Claim C5 -/

/-- The A/B pass (with the Weighted-sum operator) on loaded stores
containing a channel-mismatched key with 4-channel A aborts, and the run
then returns the error without reaching the save. -/
theorem run_weighted_sum_eq (p : MergeParams) (fns : ExternalFns)
    (rawA rB : ThetaMap) (rawC : Option ThetaMap)
    (hm : p.interp_method = "Weighted sum") :
    run_modelmerger_model p fns rawA (some rB) rawC
      = mergeAndFinish p fns (load_model p fns.toF32 rawA)
          (some (load_model p fns.toF32 rB)) := by
  unfold run_modelmerger_model
  rw [hm]
  rfl

theorem mergeAndFinish_ws_error (p : MergeParams) (fns : ExternalFns)
    (θ0 t1 : ThetaMap) (msg : String)
    (hm : p.interp_method = "Weighted sum") (hne : t1 ≠ [])
    (hmrg : mergeAB weighted_sum p.multiplier θ0 t1 = .error msg) :
    mergeAndFinish p fns θ0 (some t1) = .error msg := by
  unfold mergeAndFinish
  rw [hm]
  rw [if_neg (by decide : ¬ strContains "Weighted sum" "Extract" = true)]
  simp only []
  rw [if_neg hne,
    show theta_func2_of "Weighted sum" = some weighted_sum from rfl]
  simp only []
  rw [hmrg]

/-- C5: a merged key whose tensors agree except in dimension 1: with A at 4
channels and B at 9, the per-key merge raises the
inpainting-must-be-primary error; with B at 8, the instruct-pix2pix error;
any store containing such a key makes the whole A/B pass abort, and a
weighted-sum run on such inputs returns the error — nothing is handed to
the serializer. (`RuntimeError` here plays the spec's
`ModelCompatibilityError`.) -/
theorem C5_channel_mismatch_primary_required (f2 : Tensor → Tensor → ℤ → Tensor)
    (m : ℤ) (a b : Tensor)
    (hd : dropDim1 a.shape = dropDim1 b.shape) :
    (a.shape.get? 1 = some 4 → b.shape.get? 1 = some 9 →
      mergeKeyAB f2 m a b = .error inpaintingErrMsg)
  ∧ (a.shape.get? 1 = some 4 → b.shape.get? 1 = some 8 →
      mergeKeyAB f2 m a b = .error pix2pixErrMsg)
  ∧ (∀ θ0 θ1 k, lookupT θ0 k = some a → lookupT θ1 k = some b →
      strContains k "model" = true → k ∉ checkpoint_dict_skip_on_merge →
      a.shape.get? 1 = some 4 →
      (b.shape.get? 1 = some 9 ∨ b.shape.get? 1 = some 8) →
      ∃ msg, mergeAB f2 m θ0 θ1 = .error msg)
  ∧ (∀ (p : MergeParams) (fns : ExternalFns) (rawA rB : ThetaMap)
      (rawC : Option ThetaMap) (k : String),
      p.interp_method = "Weighted sum" →
      lookupT (load_model p fns.toF32 rawA) k = some a →
      lookupT (load_model p fns.toF32 rB) k = some b →
      strContains k "model" = true → k ∉ checkpoint_dict_skip_on_merge →
      a.shape.get? 1 = some 4 →
      (b.shape.get? 1 = some 9 ∨ b.shape.get? 1 = some 8) →
      ∃ msg, run_modelmerger_model p fns rawA (some rB) rawC = .error msg) := by
  refine ⟨fun hca hcb => mergeKeyAB_4_9 f2 m a b hd hca hcb,
    fun hca hcb => mergeKeyAB_4_8 f2 m a b hd hca hcb, ?_, ?_⟩
  · intro θ0 θ1 k ha hb hc hs hca hcb
    rcases hcb with h9 | h8
    · exact mergeABgo_err_of_bad_key f2 m θ1 θ0 k a b inpaintingErrMsg ha hb hc hs
        (mergeKeyAB_4_9 f2 m a b hd hca h9)
    · exact mergeABgo_err_of_bad_key f2 m θ1 θ0 k a b pix2pixErrMsg ha hb hc hs
        (mergeKeyAB_4_8 f2 m a b hd hca h8)
  · intro p fns rawA rB rawC k hm hA hB hc hs hca hcb
    have hne : load_model p fns.toF32 rB ≠ [] := by
      intro he
      rw [he] at hB
      exact Option.noConfusion hB
    have herr : ∃ msg0, mergeKeyAB weighted_sum p.multiplier a b = .error msg0 := by
      rcases hcb with h9 | h8
      · exact ⟨_, mergeKeyAB_4_9 weighted_sum p.multiplier a b hd hca h9⟩
      · exact ⟨_, mergeKeyAB_4_8 weighted_sum p.multiplier a b hd hca h8⟩
    obtain ⟨msg0, hk0⟩ := herr
    obtain ⟨msg, hmrg⟩ := mergeABgo_err_of_bad_key weighted_sum p.multiplier
      (load_model p fns.toF32 rB) (load_model p fns.toF32 rawA) k a b msg0
      hA hB hc hs hk0
    refine ⟨msg, ?_⟩
    rw [run_weighted_sum_eq p fns rawA rB rawC hm]
    exact mergeAndFinish_ws_error p fns _ _ msg hm hne hmrg

/-- Witness for C5 at concrete 4-versus-9 and 4-versus-8 conv tensors and a
concrete aborted run. -/
theorem C5_channel_mismatch_primary_required_witness :
    mergeKeyAB weighted_sum 2 ⟨[1, 4, 1, 1], [1, 2, 3, 4]⟩
        ⟨[1, 9, 1, 1], [1, 2, 3, 4, 5, 6, 7, 8, 9]⟩ = .error inpaintingErrMsg
  ∧ (∃ msg, run_modelmerger_model noChangeWSParams idFns
      [("model.diffusion_model.w", ⟨[1, 4, 1, 1], [1, 2, 3, 4]⟩)]
      (some [("model.diffusion_model.w", ⟨[1, 9, 1, 1], [1, 2, 3, 4, 5, 6, 7, 8, 9]⟩)])
      none = .error msg) :=
  ⟨(C5_channel_mismatch_primary_required weighted_sum 2
      ⟨[1, 4, 1, 1], [1, 2, 3, 4]⟩ ⟨[1, 9, 1, 1], [1, 2, 3, 4, 5, 6, 7, 8, 9]⟩
      (by decide)).1 (by decide) (by decide),
   (C5_channel_mismatch_primary_required weighted_sum 2
      ⟨[1, 4, 1, 1], [1, 2, 3, 4]⟩ ⟨[1, 9, 1, 1], [1, 2, 3, 4, 5, 6, 7, 8, 9]⟩
      (by decide)).2.2.2 noChangeWSParams idFns
      [("model.diffusion_model.w", ⟨[1, 4, 1, 1], [1, 2, 3, 4]⟩)]
      [("model.diffusion_model.w", ⟨[1, 9, 1, 1], [1, 2, 3, 4, 5, 6, 7, 8, 9]⟩)]
      none "model.diffusion_model.w" rfl (by rfl) (by rfl) (by rfl) (by decide)
      (by decide) (Or.inl (by decide))⟩

/-! ## Claim C6 -/

/-- C6: a merged key whose tensors agree except in dimension 1 with A at
`c ∈ {9, 8}` channels and B at 4 merges legally: only channels `0..3` of A
are combined with B via the chosen operator (they read back as the operator
result), channels `4..c-1` of A pass through unmodified, and the result is
flagged inpainting-derived for `c = 9` and instruct-pix2pix-derived for
`c = 8` — also at the level of the whole A/B pass. -/
theorem C6_channel_mismatch_merge (f2 : Tensor → Tensor → ℤ → Tensor) (m : ℤ)
    (a b : Tensor) (c : Nat) (hc : c = 9 ∨ c = 8)
    (hwa : a.wf) (hr : 4 ≤ a.shape.length)
    (hd : dropDim1 a.shape = dropDim1 b.shape)
    (hca : a.shape.get? 1 = some c) (hcb : b.shape.get? 1 = some 4)
    (hms : (f2 (sliceCh4 a) b m).shape = (sliceCh4 a).shape)
    (hmw : (f2 (sliceCh4 a) b m).wf) :
    mergeKeyAB f2 m a b
      = .ok (assignCh4 a (f2 (sliceCh4 a) b m), decide (c = 9), decide (c = 8))
  ∧ (∀ i j, i < a.shape.headD 0 → 4 ≤ j → j < c →
      readCh (assignCh4 a (f2 (sliceCh4 a) b m)) i j = readCh a i j)
  ∧ (∀ i j, i < a.shape.headD 0 → j < 4 →
      readCh (assignCh4 a (f2 (sliceCh4 a) b m)) i j
        = readCh (f2 (sliceCh4 a) b m) i j)
  ∧ (∀ θ0 θ1 k out fl1 fl2, lookupT θ0 k = some a → lookupT θ1 k = some b →
      strContains k "model" = true → k ∉ checkpoint_dict_skip_on_merge →
      mergeAB f2 m θ0 θ1 = .ok (out, fl1, fl2) →
      lookupT out k = some (assignCh4 a (f2 (sliceCh4 a) b m))
        ∧ (c = 9 → fl1 = true) ∧ (c = 8 → fl2 = true)) := by
  obtain ⟨n0, s1, hsh1⟩ : ∃ x xs, a.shape = x :: xs := by
    cases hq : a.shape with
    | nil => rw [hq] at hr; exact absurd hr (by decide)
    | cons x xs => exact ⟨x, xs, rfl⟩
  obtain ⟨n1, r2, hsh2⟩ : ∃ y ys, s1 = y :: ys := by
    cases hq : s1 with
    | nil =>
      rw [hq] at hsh1
      rw [hsh1] at hr
      simp at hr
    | cons y ys => exact ⟨y, ys, rfl⟩
  rw [hsh2] at hsh1
  have hn1 : n1 = c := by
    rw [hsh1] at hca
    simpa using hca
  subst hn1
  have hflag : mergeKeyAB f2 m a b
      = .ok (assignCh4 a (f2 (sliceCh4 a) b m), decide (n1 = 9), decide (n1 = 8)) := by
    rcases hc with h9 | h8
    · subst h9
      rw [mergeKeyAB_9_4 f2 m a b hd hca hcb hr]
      rfl
    · subst h8
      rw [mergeKeyAB_8_4 f2 m a b hd hca hcb hr]
      rfl
  refine ⟨hflag, ?_, ?_, ?_⟩
  · intro i j hi hj4 hjc
    refine readCh_assignCh4_high a _ n0 n1 r2 hsh1 hwa hms hmw i j ?_ hj4 hjc
    rw [hsh1] at hi
    exact hi
  · intro i j hi hj
    refine readCh_assignCh4_low a _ n0 n1 r2 hsh1 hwa ?_ hms hmw i j ?_ hj
    · rcases hc with h | h <;> rw [h] <;> decide
    · rw [hsh1] at hi
      exact hi
  · intro θ0 θ1 k out fl1 fl2 ha hb hcs hsk hok
    obtain ⟨hl, hf1, hf2⟩ := mergeABgo_ok_merged f2 m θ1 θ0 k a b _
      (decide (n1 = 9)) (decide (n1 = 8)) ha hb hcs hsk hflag out fl1 fl2 hok
    refine ⟨hl, ?_, ?_⟩
    · intro h9
      exact hf1 (by rw [h9]; rfl)
    · intro h8
      exact hf2 (by rw [h8]; rfl)

/-- A 9-channel conv tensor for A. -/
def tCh9 : Tensor := ⟨[1, 9, 1, 1], [1, 2, 3, 4, 5, 6, 7, 8, 9]⟩

/-- A 4-channel conv tensor for B. -/
def tCh4 : Tensor := ⟨[1, 4, 1, 1], [9, 9, 9, 9]⟩

/-- Witness for C6 at a concrete 9-versus-4 pair: channel 5 of the result
reads back as channel 5 of A, channel 2 as channel 2 of the merged slice,
and the inpainting flag is set. -/
theorem C6_channel_mismatch_merge_witness :
    mergeKeyAB weighted_sum 1 tCh9 tCh4
      = .ok (assignCh4 tCh9 (weighted_sum (sliceCh4 tCh9) tCh4 1),
          decide (9 = 9), decide (9 = 8))
  ∧ readCh (assignCh4 tCh9 (weighted_sum (sliceCh4 tCh9) tCh4 1)) 0 5
      = readCh tCh9 0 5
  ∧ readCh (assignCh4 tCh9 (weighted_sum (sliceCh4 tCh9) tCh4 1)) 0 2
      = readCh (weighted_sum (sliceCh4 tCh9) tCh4 1) 0 2 :=
  ⟨(C6_channel_mismatch_merge weighted_sum 1 tCh9 tCh4 9 (Or.inl rfl) (by decide)
      (by decide) (by decide) (by decide) (by decide) (by decide) (by decide)).1,
   (C6_channel_mismatch_merge weighted_sum 1 tCh9 tCh4 9 (Or.inl rfl) (by decide)
      (by decide) (by decide) (by decide) (by decide) (by decide) (by decide)).2.1
      0 5 (by decide) (by decide) (by decide),
   (C6_channel_mismatch_merge weighted_sum 1 tCh9 tCh4 9 (Or.inl rfl) (by decide)
      (by decide) (by decide) (by decide) (by decide) (by decide) (by decide)).2.2.1
      0 2 (by decide) (by decide)⟩

/-! ## Claim C9 -/

theorem lookupT_map_value (g : String → Tensor → Tensor) (l : ThetaMap)
    (k : String) :
    lookupT (l.map (fun kv => (kv.1, g kv.1 kv.2))) k
      = (lookupT l k).map (g k) := by
  induction l with
  | nil => rfl
  | cons e rest ih =>
    obtain ⟨k1, v1⟩ := e
    by_cases h1 : k1 = k
    · subst h1
      simp [lookupT]
    · simp [lookupT, h1, ih]

/-- C9: a `"None (remove)"` save policy is overridden by a `"Built in (A)"`
bake source at load time: with VAE policy remove but VAE bake source
`"Built in (A)"`, and text-encoder policy remove but `"Built in (A)"` among
the text-encoder bake sources, a key classified vae or text-encoder (and
not caught by the backbone strip pattern or a discard regex) survives
`load_model`. -/
theorem C9_built_in_A_overrides_remove (p : MergeParams)
    (toF32 : Tensor → Tensor) (θ : ThetaMap) (k : String)
    (hv : p.save_v = "None (remove)") (hbv : p.bake_in_vae = "Built in (A)")
    (ht : p.save_t = "None (remove)") (hbt : "Built in (A)" ∈ p.bake_in_te)
    (hdw : p.discard_weights = none)
    (hcls : isVaeStripKey k = true ∨ isTeStripKey k = true)
    (hnu : isUnetStripKey k = false)
    (hk : hasKey θ k = true) :
    hasKey (load_model p toF32 θ) k = true := by
  have h2 : (if (p.save_v = "None (remove)" ∨ p.interp_method = "Extract Unet"
      ∨ p.interp_method = "Extract Text encoder(s)")
      ∧ p.bake_in_vae ≠ "Built in (A)" then 2 else 0) = 0 :=
    if_neg (fun hcon => hcon.2 hbv)
  have h1 : (if (p.save_t = "None (remove)" ∨ p.interp_method = "Extract Unet"
      ∨ p.interp_method = "Extract VAE")
      ∧ "Built in (A)" ∉ p.bake_in_te then 1 else 0) = 0 :=
    if_neg (fun hcon => hcon.2 hbt)
  have hbits : stripBits p = 0 ∨ stripBits p = 4 := by
    unfold stripBits
    rw [h1, h2]
    by_cases h3 : (p.save_u = "None (remove)" ∨ p.interp_method = "Extract VAE"
        ∨ p.interp_method = "Extract Text encoder(s)")
    · rw [if_pos h3]
      right
      rfl
    · rw [if_neg h3]
      left
      rfl
  have hpred : stripPred (stripBits p) k = false := by
    rcases hbits with h | h <;> rw [h]
    · rfl
    · exact hnu
  have hstrip : lookupT (if stripBits p > 0
      then θ.filter (fun kv => !stripPred (stripBits p) kv.1) else θ) k
      = lookupT θ k := by
    split
    · rw [lookupT_filter_key (fun key => !stripPred (stripBits p) key) θ k, hpred]
      rfl
    · rfl
  unfold hasKey at hk ⊢
  unfold load_model
  rw [hdw]
  simp only []
  split
  · rw [lookupT_map_value (fun _ v => toF32 v) _ k, hstrip]
    cases hlv : lookupT θ k with
    | none => rw [hlv] at hk; exact Bool.noConfusion hk
    | some v => rfl
  · rw [hstrip]
    exact hk

/-- Parameters for the C9 witness: remove policies for VAE and
text-encoder, both bake sources `"Built in (A)"`. -/
def c9Params : MergeParams :=
  ⟨"Weighted sum", 2, "No change", "None (remove)", "None (remove)", false,
   "Built in (A)", ["Built in (A)"], none⟩

/-- Witness for C9: both a vae key and a text-encoder key survive the load. -/
theorem C9_built_in_A_overrides_remove_witness :
    hasKey (load_model c9Params id
      [("first_stage_model.a", tEx1), ("text_model.b", tEx3)])
      "first_stage_model.a" = true
  ∧ hasKey (load_model c9Params id
      [("first_stage_model.a", tEx1), ("text_model.b", tEx3)])
      "text_model.b" = true :=
  ⟨C9_built_in_A_overrides_remove c9Params id
      [("first_stage_model.a", tEx1), ("text_model.b", tEx3)]
      "first_stage_model.a" rfl rfl rfl (by decide) rfl (Or.inl (by rfl))
      (by rfl) (by rfl),
   C9_built_in_A_overrides_remove c9Params id
      [("first_stage_model.a", tEx1), ("text_model.b", tEx3)]
      "text_model.b" rfl rfl rfl (by decide) rfl (Or.inr (by rfl))
      (by rfl) (by rfl)⟩

/-! ## Claim C4 -/

/-- When the strip bitmask is active and matches a key, `load_model` drops
it (through the discard filter and the float32 upcast). -/
theorem load_model_strips (p : MergeParams) (toF32 : Tensor → Tensor)
    (θ : ThetaMap) (k : String)
    (hgt : stripBits p > 0) (hpred : stripPred (stripBits p) k = true) :
    lookupT (load_model p toF32 θ) k = none := by
  unfold load_model
  simp only []
  rw [if_pos hgt]
  have h1 : lookupT (θ.filter (fun kv => !stripPred (stripBits p) kv.1)) k = none := by
    rw [lookupT_filter_key (fun key => !stripPred (stripBits p) key) θ k, hpred]
    rfl
  split
  · refine lookupT_map_fst (fun kv => (kv.1, toF32 kv.2)) (fun kv => rfl) _ k ?_
    split
    · exact h1
    · exact lookupT_filter_none _ _ _ h1
  · split
    · exact h1
    · exact lookupT_filter_none _ _ _ h1

/-- A VAE bake source of `"None"` disables the VAE bake block. -/
theorem bakeVaeStep_skipped (p : MergeParams) (r : String → String)
    (src : ThetaMap) (ut : Option String) (θ : ThetaMap)
    (hbv : p.bake_in_vae = "None") :
    bakeVaeStep p r src ut θ = θ := by
  unfold bakeVaeStep
  rw [hbv]
  exact if_neg (fun hcon => hcon.1 (by rfl))

/-- C4 counterexample: with VAE save policy `"None (remove)"`, method
`"Weighted sum"` (not extract-vae) and VAE bake source `"Built in (A)"`,
the vae-classified key `first_stage_model.k` is present in the saved
output map. -/
theorem C4_counterexample :
    builtInAParams.save_v = "None (remove)"
  ∧ builtInAParams.interp_method ≠ "Extract VAE"
  ∧ isVaeStripKey "first_stage_model.k" = true
  ∧ run_modelmerger_model builtInAParams idFns
      [("first_stage_model.k", tEx1)] (some [("first_stage_model.k", tEx3)]) none
    = .ok ⟨[("first_stage_model.k", ⟨[1], [5]⟩)], false, false⟩
  ∧ lookupT [("first_stage_model.k", ⟨[1], [5]⟩)] "first_stage_model.k" ≠ none :=
  ⟨rfl, by decide, by rfl, by rfl, by decide⟩

/-- C4 (amended): with VAE save policy `"None (remove)"`, interpolation not
extract-vae, and VAE bake source `"None"` (rather than any source — a
`"Built in (A)"` source suppresses the load-time strip and an external
source re-overlays vae keys), every vae-classified key is absent from the
saved output map, as long as text-encoder baking only produces keys in the
text-encoder namespace (which §4.5 guarantees for the external remapper). -/
theorem C4_amended_vae_removed (p : MergeParams) (fns : ExternalFns)
    (rawA : ThetaMap) (rawB rawC : Option ThetaMap) (out : SaveOut) (k : String)
    (hv : p.save_v = "None (remove)") (hiv : p.interp_method ≠ "Extract VAE")
    (hbv : p.bake_in_vae = "None")
    (hte : ∀ s, isVaeStripKey (fns.remapTe s) = false)
    (hk : isVaeStripKey k = true)
    (hok : run_modelmerger_model p fns rawA rawB rawC = .ok out) :
    lookupT out.outMap k = none := by
  have h2 : (if (p.save_v = "None (remove)" ∨ p.interp_method = "Extract Unet"
      ∨ p.interp_method = "Extract Text encoder(s)")
      ∧ p.bake_in_vae ≠ "Built in (A)" then 2 else 0) = 2 :=
    if_pos ⟨Or.inl hv, by rw [hbv]; decide⟩
  have hn : stripBits p = 2 ∨ stripBits p = 3 ∨ stripBits p = 6 ∨ stripBits p = 7 := by
    unfold stripBits
    rw [h2]
    by_cases h1 : ((p.save_t = "None (remove)" ∨ p.interp_method = "Extract Unet"
        ∨ p.interp_method = "Extract VAE") ∧ "Built in (A)" ∉ p.bake_in_te) <;>
      by_cases h4 : (p.save_u = "None (remove)" ∨ p.interp_method = "Extract VAE"
        ∨ p.interp_method = "Extract Text encoder(s)")
    · rw [if_pos h1, if_pos h4]; decide
    · rw [if_pos h1, if_neg h4]; decide
    · rw [if_neg h1, if_pos h4]; decide
    · rw [if_neg h1, if_neg h4]; decide
  have hgt : stripBits p > 0 := by
    rcases hn with h | h | h | h <;> rw [h] <;> decide
  have hA : lookupT (load_model p fns.toF32 rawA) k = none :=
    load_model_strips p fns.toF32 rawA k hgt (stripPred_of_vae _ hn k hk)
  have hrte : ∀ x, fns.remapTe x ≠ k := by
    intro x heq
    have hx := hte x
    rw [heq, hk] at hx
    exact Bool.noConfusion hx
  obtain ⟨θ1?, hfin⟩ := run_ok_to_finish p fns rawA rawB rawC out hok
  unfold mergeAndFinish at hfin
  by_cases hex : strContains p.interp_method "Extract" = true
  · rw [if_pos hex] at hfin
    simp only [Except.ok.injEq] at hfin
    rw [← hfin]
    exact hA
  · rw [if_neg hex] at hfin
    simp only [] at hfin
    split at hfin
    · exact Except.noConfusion hfin
    · rename_i θm fl1 fl2 heq
      have hm_none : lookupT θm k = none := by
        cases θ1? with
        | none =>
          simp only [Except.ok.injEq, Prod.mk.injEq] at heq
          rw [← heq.1]
          exact hA
        | some t1 =>
          simp only [] at heq
          by_cases h0 : t1 = []
          · rw [if_pos h0] at heq
            simp only [Except.ok.injEq, Prod.mk.injEq] at heq
            rw [← heq.1]
            exact hA
          · rw [if_neg h0] at heq
            cases hf2 : theta_func2_of p.interp_method with
            | none =>
              rw [hf2] at heq
              simp only [Except.ok.injEq, Prod.mk.injEq] at heq
              rw [← heq.1]
              exact hA
            | some f2v =>
              rw [hf2] at heq
              exact mergeABgo_ok_absent f2v p.multiplier t1 _ k hA θm fl1 fl2 heq
      simp only [Except.ok.injEq] at hfin
      rw [← hfin]
      refine saveCastLoop_preserves_none p fns _ k ?_
      have hb1 : lookupT (bakeVaeStep p fns.remapVae fns.vaeSource
          (probeUnetTestKey (load_model p fns.toF32 rawA)) θm) k = none := by
        rw [bakeVaeStep_skipped p _ _ _ _ hbv]
        exact hm_none
      have hb2 : lookupT (bakeTeAll p fns.remapTe fns.teSource
          (probeUnetTestKey (load_model p fns.toF32 rawA))
          (bakeVaeStep p fns.remapVae fns.vaeSource
            (probeUnetTestKey (load_model p fns.toF32 rawA)) θm)) k = none :=
        bakeTeAll_preserves_none p fns.remapTe fns.teSource _ _ k hb1 hrte
      cases hdw : p.discard_weights with
      | none => exact hb2
      | some disc => exact lookupT_filter_none _ _ _ hb2

/-- External collaborators whose text-encoder remap lands in the
text-encoder namespace. -/
def teRemapFns : ExternalFns :=
  ⟨id, id, id, id, id, id, fun _ => "text_model.remapped", [], fun _ => []⟩

/-- Witness for C4 (amended): the same scenario as the counterexample but
with VAE bake source `"None"`, where the key is indeed gone. -/
theorem C4_amended_vae_removed_witness :
    run_modelmerger_model
      ⟨"Weighted sum", 2, "No change", "None (remove)", "No change", false,
        "None", [], none⟩ teRemapFns
      [("first_stage_model.k", tEx1), ("model.diffusion_model.w", tEx1)]
      (some [("model.diffusion_model.w", tEx3)]) none
    = .ok ⟨[("model.diffusion_model.w", ⟨[1], [5]⟩)], false, false⟩
  ∧ lookupT [("model.diffusion_model.w", ⟨[1], [5]⟩)] "first_stage_model.k"
      = none :=
  ⟨by rfl,
   C4_amended_vae_removed
      ⟨"Weighted sum", 2, "No change", "None (remove)", "No change", false,
        "None", [], none⟩ teRemapFns
      [("first_stage_model.k", tEx1), ("model.diffusion_model.w", tEx1)]
      (some [("model.diffusion_model.w", tEx3)]) none
      ⟨[("model.diffusion_model.w", ⟨[1], [5]⟩)], false, false⟩
      "first_stage_model.k" rfl (by decide) rfl (fun s => by rfl) (by rfl)
      (by rfl)⟩

/-! ## Claim C10 -/

/-- C10: when a key-discard regex is supplied, no key matching it is in the
saved output map: the discard filter is re-applied to the working store
after all baking (so keys a bake overlay reintroduced are dropped again)
and before precision casting and save; in the extract branch the load-time
discard already guarantees it. -/
theorem C10_discard_reapplied (p : MergeParams) (fns : ExternalFns)
    (rawA : ThetaMap) (rawB rawC : Option ThetaMap) (out : SaveOut)
    (disc : String → Bool) (k : String)
    (hdw : p.discard_weights = some disc) (hdk : disc k = true)
    (hok : run_modelmerger_model p fns rawA rawB rawC = .ok out) :
    lookupT out.outMap k = none := by
  have hA : lookupT (load_model p fns.toF32 rawA) k = none := by
    unfold load_model
    simp only []
    rw [hdw]
    have h2 : lookupT ((if stripBits p > 0
        then rawA.filter (fun kv => !stripPred (stripBits p) kv.1)
        else rawA).filter (fun kv => !disc kv.1)) k = none := by
      rw [lookupT_filter_key (fun key => !disc key) _ k, hdk]
      rfl
    split
    · exact lookupT_map_fst (fun kv => (kv.1, fns.toF32 kv.2)) (fun kv => rfl) _ k h2
    · exact h2
  obtain ⟨θ1?, hfin⟩ := run_ok_to_finish p fns rawA rawB rawC out hok
  unfold mergeAndFinish at hfin
  by_cases hex : strContains p.interp_method "Extract" = true
  · rw [if_pos hex] at hfin
    simp only [Except.ok.injEq] at hfin
    rw [← hfin]
    exact hA
  · rw [if_neg hex] at hfin
    simp only [] at hfin
    split at hfin
    · exact Except.noConfusion hfin
    · rename_i θm fl1 fl2 heq
      rw [hdw] at hfin
      simp only [Except.ok.injEq] at hfin
      rw [← hfin]
      refine saveCastLoop_preserves_none p fns _ k ?_
      rw [lookupT_filter_key (fun key => !disc key) _ k, hdk]
      rfl

/-- Witness for C10: a discard regex matching `first_stage` keys removes a
key that the VAE bake overlay would otherwise keep in the output. -/
theorem C10_discard_reapplied_witness :
    run_modelmerger_model
      ⟨"Weighted sum", 2, "No change", "No change", "No change", false,
        "myvae", [], some (fun key => strContains key "first_stage")⟩
      ⟨id, id, id, id, id, id, id, [("first_stage_model.r", tEx3)], fun _ => []⟩
      [("first_stage_model.k", tEx1),
       ("model.diffusion_model.output_blocks.10.0.emb_layers.1.bias", tEx1)]
      (some []) none
    = .ok ⟨[("model.diffusion_model.output_blocks.10.0.emb_layers.1.bias", tEx1)],
        false, false⟩
  ∧ lookupT [("model.diffusion_model.output_blocks.10.0.emb_layers.1.bias",
        tEx1)] "first_stage_model.k" = none :=
  ⟨by rfl,
   C10_discard_reapplied
      ⟨"Weighted sum", 2, "No change", "No change", "No change", false,
        "myvae", [], some (fun key => strContains key "first_stage")⟩
      ⟨id, id, id, id, id, id, id, [("first_stage_model.r", tEx3)], fun _ => []⟩
      [("first_stage_model.k", tEx1),
       ("model.diffusion_model.output_blocks.10.0.emb_layers.1.bias", tEx1)]
      (some []) none
      ⟨[("model.diffusion_model.output_blocks.10.0.emb_layers.1.bias", tEx1)],
        false, false⟩
      (fun key => strContains key "first_stage") "first_stage_model.k"
      rfl (by rfl) (by rfl)⟩

end ForgeMerge
